import Mathlib

/-!
Verification of the ftdi-tools MPSSE driver against its specification.

The definitions below are a shallow embedding of the Rust sources:
`src/mpsse_cmd.rs` (MPSSE command builder and shift-opcode construction),
`src/swd.rs` (SWD request framing), `src/mpsse.rs` (pin registry),
`src/spi.rs` (SPI bus and SPI device), `src/i2c.rs` (I2C master) and
`src/jtag/*.rs` (IDCODE chain scanning).  Machine bytes are modelled as
`Nat` values below 256, byte vectors as `List Nat`, and fallible or
panicking operations as `Option`/`Except` results.
-/

/-- `1` when the flag is set, `0` otherwise: one bit of a flags word. -/
def boolBit (b : Bool) : Nat := if b then 1 else 0

namespace MpsseShiftCmd

/-- The raw 8-bit flags word of `MpsseShiftCmd` (bitfield, LSB order):
bit0 `is_tdi_neg_write`, bit1 `is_bit_mode`, bit2 `is_tdo_neg_read`,
bit3 `is_lsb`, bit4 `is_tdi_write`, bit5 `is_tdo_read`,
bit6 `is_tms_write`, bit7 constant 0. -/
def word (tdiNegWrite bitMode tdoNegRead lsb tdiWrite tdoRead tmsWrite : Bool) : Nat :=
  boolBit tdiNegWrite + 2 * boolBit bitMode + 4 * boolBit tdoNegRead +
    8 * boolBit lsb + 16 * boolBit tdiWrite + 32 * boolBit tdoRead +
    64 * boolBit tmsWrite

/-- `MpsseShiftCmd::shift` without the assertion; only called with
`is_tdi_write || is_tdo_read` (the source asserts this). -/
def shiftRaw (tck_init_value is_bit_mode is_lsb is_tdi_write is_tdo_read : Bool) : Nat :=
  word ((!tck_init_value) && is_tdi_write) is_bit_mode
    (tck_init_value && is_tdo_read) is_lsb is_tdi_write is_tdo_read false

/-- `MpsseShiftCmd::shift`: the `assert!(is_tdi_write | is_tdo_read)` is
modelled as returning `none` (a panic) when both are false. -/
def shift (tck_init_value is_bit_mode is_lsb is_tdi_write is_tdo_read : Bool) : Option Nat :=
  if is_tdi_write || is_tdo_read then
    some (shiftRaw tck_init_value is_bit_mode is_lsb is_tdi_write is_tdo_read)
  else none

/-- `MpsseShiftCmd::_tms_shift`: bitfield defaults `is_bit_mode = true`,
`is_lsb = true`, with `is_tms_write = true` set. -/
def tms_shiftFull (tck_init_value tdo_neg_read tdo_read : Bool) : Nat :=
  word (!tck_init_value) true (tdo_neg_read && tdo_read) true false tdo_read true

/-- `MpsseShiftCmd::tms_shift`. -/
def tms_shift (tdo_read : Bool) : Nat :=
  tms_shiftFull false false tdo_read

end MpsseShiftCmd

/-- All boolean values, used to enumerate opcode constructor inputs. -/
def allBools : List Bool := [false, true]

/-- Every opcode byte the `MpsseShiftCmd::shift` constructor can produce
(over all argument combinations that do not panic). -/
def shiftOpcodeList : List Nat :=
  allBools.flatMap fun tck =>
    allBools.flatMap fun bm =>
      allBools.flatMap fun lsb =>
        allBools.flatMap fun w =>
          (allBools.filterMap fun r =>
            MpsseShiftCmd.shift tck bm lsb w r)

/-- Every opcode byte the `MpsseShiftCmd::_tms_shift` constructor can
produce (over all argument combinations). -/
def tmsOpcodeList : List Nat :=
  allBools.flatMap fun tck =>
    allBools.flatMap fun neg =>
      allBools.map fun r =>
        MpsseShiftCmd.tms_shiftFull tck neg r

/-- The 30 legal opcode bytes named by the specification. -/
def legalOpcodeList : List Nat :=
  [0x10, 0x11, 0x12, 0x13, 0x18, 0x19, 0x1a, 0x1b, 0x20, 0x22, 0x24, 0x26,
   0x28, 0x2a, 0x2c, 0x2e, 0x31, 0x33, 0x34, 0x36, 0x39, 0x3b, 0x3c, 0x3e,
   0x4a, 0x4b, 0x6a, 0x6b, 0x6e, 0x6f]

/-- Fuelled helper for `popCount`; the fuel bounds the recursion depth so
that the definition is structural and kernel-reducible. -/
def popCountFuel : Nat → Nat → Nat
  | 0, _ => 0
  | fuel + 1, n => if n = 0 then 0 else n % 2 + popCountFuel fuel (n / 2)

/-- `u32::count_ones` / `u8::count_ones` on a natural number. -/
def popCount (n : Nat) : Nat := popCountFuel n n

namespace SwdAddrModel

/-- `SwdAddr`: a DP or AP register address. -/
inductive SwdAddr where
  | Dp (addr : Nat)
  | Ap (addr : Nat)

/-- `impl From<SwdAddr> for u8`: `Dp(a)` maps to `a << 1 & 0b1100`,
`Ap(a)` additionally sets bit 1 (the APnDP bit). -/
def swdAddrByte : SwdAddr → Nat
  | SwdAddr.Dp addr => (addr <<< 1) &&& 0b1100
  | SwdAddr.Ap addr => ((addr <<< 1) &&& 0b1100) ||| 0b10

/-- `FtdiSwd::build_request`: Start(1) | Park(1), the RnW bit for reads,
the address bits, then the parity bit computed by the source as
`((request >> 1) & 0x0F).count_ones() != 0`. -/
def build_request (is_read : Bool) (addr : SwdAddr) : Nat :=
  let request := 0b10000001 ||| (if is_read then 0b100 else 0) ||| swdAddrByte addr
  let parity := popCount ((request >>> 1) &&& 0x0F)
  request ||| (if parity ≠ 0 then 0b100000 else 0)

/-- The popcount (mod 2) of the APnDP, RnW, A2, A3 bits of a request. -/
def fourBitParity (request : Nat) : Nat :=
  popCount ((request >>> 1) &&& 0x0F) % 2

end SwdAddrModel

/-- C2: for every `(tck_idle, bit_mode, lsb_first, writing, reading)` with
`writing || reading`, the shift opcode has write-on-falling-edge
`(!tck_idle) && writing` (bit 0) and read-on-falling-edge
`tck_idle && reading` (bit 2), and the set of bytes producible by the
shift and TMS-shift constructors is exactly the 30 legal opcodes. -/
theorem mpsse_shift_opcode_derivation :
    (∀ tck bm lsb w r : Bool, (w || r) = true →
      MpsseShiftCmd.shift tck bm lsb w r =
        some (MpsseShiftCmd.shiftRaw tck bm lsb w r) ∧
      (MpsseShiftCmd.shiftRaw tck bm lsb w r).testBit 0 = ((!tck) && w) ∧
      (MpsseShiftCmd.shiftRaw tck bm lsb w r).testBit 2 = (tck && r)) ∧
    (shiftOpcodeList ++ tmsOpcodeList).toFinset = legalOpcodeList.toFinset := by
  constructor
  · decide
  · decide

/-- Witness for C2 at `tck = true, bit_mode = false, lsb = false,
writing = true, reading = false` (opcode `0x10`). -/
theorem mpsse_shift_opcode_derivation_witness :
    MpsseShiftCmd.shift true false false true false = some 0x10 ∧
    (MpsseShiftCmd.shiftRaw true false false true false).testBit 0 = false ∧
    (MpsseShiftCmd.shiftRaw true false false true false).testBit 2 = false := by
  have h := mpsse_shift_opcode_derivation.1 true false false true false (by decide)
  exact ⟨by rw [h.1]; decide, h.2.1, h.2.2⟩

/-- C3 (code bug): the SWD request for a read of `Dp(4)` has APnDP = 0,
RnW = 1, A2 = 1, A3 = 0, so the popcount of those four bits is even and
the claimed parity bit is 0; the source instead tests
`count_ones() != 0` and produces request `0xAD` with parity bit 1. -/
theorem swd_build_request_parity_bug :
    SwdAddrModel.build_request true (SwdAddrModel.SwdAddr.Dp 4) = 0xAD ∧
    (0xAD : Nat).testBit 5 = true ∧
    SwdAddrModel.fourBitParity 0xAD = 0 := by
  refine ⟨by decide, by decide, by decide⟩

/-- `MAX_BYTES_SHIFT`: byte-mode shifts carry at most 65536 bytes. -/
def MAX_BYTES_SHIFT : Nat := 65536

/-- Fuelled helper for `chunksMax` (structural recursion so that concrete
instances reduce in the kernel). -/
def chunksFuel : Nat → List Nat → List (List Nat)
  | 0, _ => []
  | _, [] => []
  | fuel + 1, l => l.take MAX_BYTES_SHIFT :: chunksFuel fuel (l.drop MAX_BYTES_SHIFT)

/-- Rust's `data.chunks(MAX_BYTES_SHIFT)`: split into consecutive
sub-slices of at most 65536 bytes, the last possibly shorter; the empty
slice yields no chunks. -/
def chunksMax (l : List Nat) : List (List Nat) := chunksFuel l.length l

/-- `MpsseCmdBuilder`: an append-only byte vector plus the running
expected-response-length counter. -/
structure MpsseCmdBuilder where
  cmd : List Nat
  read_len : Nat
  deriving DecidableEq

namespace MpsseCmdBuilder

/-- `MpsseCmdBuilder::new` (`Default`). -/
def new : MpsseCmdBuilder := ⟨[], 0⟩

/-- `MpsseCmdBuilder::set_clock`. -/
def set_clock (b : MpsseCmdBuilder) (divisor : Nat) (clk_div_by5 : Option Bool) :
    MpsseCmdBuilder :=
  let b1 : MpsseCmdBuilder :=
    match clk_div_by5 with
    | some true => { b with cmd := b.cmd ++ [0x8B] }
    | some false => { b with cmd := b.cmd ++ [0x8A] }
    | none => b
  { b1 with cmd := b1.cmd ++ [0x86, divisor &&& 0xFF, (divisor >>> 8) &&& 0xFF] }

/-- `MpsseCmdBuilder::enable_loopback`. -/
def enable_loopback (b : MpsseCmdBuilder) (state : Bool) : MpsseCmdBuilder :=
  { b with cmd := b.cmd ++ [if state then 0x84 else 0x85] }

/-- `MpsseCmdBuilder::enable_3phase_data_clocking`. -/
def enable_3phase_data_clocking (b : MpsseCmdBuilder) (state : Bool) : MpsseCmdBuilder :=
  { b with cmd := b.cmd ++ [if state then 0x8C else 0x8D] }

/-- `MpsseCmdBuilder::enable_adaptive_clocking`. -/
def enable_adaptive_clocking (b : MpsseCmdBuilder) (state : Bool) : MpsseCmdBuilder :=
  { b with cmd := b.cmd ++ [if state then 0x96 else 0x97] }

/-- `MpsseCmdBuilder::set_gpio_lower`. -/
def set_gpio_lower (b : MpsseCmdBuilder) (state direction : Nat) : MpsseCmdBuilder :=
  { b with cmd := b.cmd ++ [0x80, state, direction] }

/-- `MpsseCmdBuilder::set_gpio_upper`. -/
def set_gpio_upper (b : MpsseCmdBuilder) (state direction : Nat) : MpsseCmdBuilder :=
  { b with cmd := b.cmd ++ [0x82, state, direction] }

/-- `MpsseCmdBuilder::gpio_lower`: reads one response byte. -/
def gpio_lower (b : MpsseCmdBuilder) : MpsseCmdBuilder :=
  { cmd := b.cmd ++ [0x81], read_len := b.read_len + 1 }

/-- `MpsseCmdBuilder::gpio_upper`: reads one response byte. -/
def gpio_upper (b : MpsseCmdBuilder) : MpsseCmdBuilder :=
  { cmd := b.cmd ++ [0x83], read_len := b.read_len + 1 }

/-- `MpsseCmdBuilder::send_immediate`. -/
def send_immediate (b : MpsseCmdBuilder) : MpsseCmdBuilder :=
  { b with cmd := b.cmd ++ [0x87] }

/-- `MpsseCmdBuilder::shift_bytes_out_limited`.  The source's
`assert!(len <= MAX_BYTES_SHIFT)` always holds at its call sites (chunks
are at most 65536 bytes), so it is not modelled. -/
def shift_bytes_out_limited (b : MpsseCmdBuilder) (tck_init_value is_lsb : Bool)
    (data : List Nat) : MpsseCmdBuilder :=
  if data.length = 0 then b
  else
    let len := data.length - 1
    { b with
      cmd := b.cmd ++
        [MpsseShiftCmd.shiftRaw tck_init_value false is_lsb true false,
         len &&& 0xFF, (len >>> 8) &&& 0xFF] ++ data }

/-- `MpsseCmdBuilder::shift_bytes_out`: write-only byte shift, chunked. -/
def shift_bytes_out (b : MpsseCmdBuilder) (tck_init_value is_lsb : Bool)
    (data : List Nat) : MpsseCmdBuilder :=
  (chunksMax data).foldl (fun acc slice => shift_bytes_out_limited acc tck_init_value is_lsb slice) b

/-- `MpsseCmdBuilder::shift_bytes_in_limited` (assert as above). -/
def shift_bytes_in_limited (b : MpsseCmdBuilder) (tck_init_value is_lsb : Bool)
    (len : Nat) : MpsseCmdBuilder :=
  if len = 0 then b
  else
    { cmd := b.cmd ++
        [MpsseShiftCmd.shiftRaw tck_init_value false is_lsb false true,
         (len - 1) &&& 0xFF, ((len - 1) >>> 8) &&& 0xFF],
      read_len := b.read_len + len }

/-- Fuelled helper for `shift_bytes_in`'s `while len >= MAX_BYTES_SHIFT`
loop; the fuel bounds the number of iterations. -/
def shift_bytes_inFuel : Nat → MpsseCmdBuilder → Bool → Bool → Nat → MpsseCmdBuilder
  | 0, b, tck_init_value, is_lsb, len => shift_bytes_in_limited b tck_init_value is_lsb len
  | fuel + 1, b, tck_init_value, is_lsb, len =>
    if MAX_BYTES_SHIFT ≤ len then
      shift_bytes_inFuel fuel (shift_bytes_in_limited b tck_init_value is_lsb MAX_BYTES_SHIFT)
        tck_init_value is_lsb (len - MAX_BYTES_SHIFT)
    else shift_bytes_in_limited b tck_init_value is_lsb len

/-- `MpsseCmdBuilder::shift_bytes_in`: read-only byte shift, chunked. -/
def shift_bytes_in (b : MpsseCmdBuilder) (tck_init_value is_lsb : Bool)
    (len : Nat) : MpsseCmdBuilder :=
  shift_bytes_inFuel len b tck_init_value is_lsb len

/-- `MpsseCmdBuilder::shift_bytes_limited` (assert as above). -/
def shift_bytes_limited (b : MpsseCmdBuilder) (tck_init_value is_lsb : Bool)
    (data : List Nat) : MpsseCmdBuilder :=
  if data.length = 0 then b
  else
    let len := data.length - 1
    { cmd := b.cmd ++
        [MpsseShiftCmd.shiftRaw tck_init_value false is_lsb true true,
         len &&& 0xFF, (len >>> 8) &&& 0xFF] ++ data,
      read_len := b.read_len + data.length }

/-- `MpsseCmdBuilder::shift_bytes`: simultaneous read-write byte shift. -/
def shift_bytes (b : MpsseCmdBuilder) (tck_init_value is_lsb : Bool)
    (data : List Nat) : MpsseCmdBuilder :=
  (chunksMax data).foldl (fun acc slice => shift_bytes_limited acc tck_init_value is_lsb slice) b

/-- `MpsseCmdBuilder::shift_bits_out`.  The source panics when `len > 8`;
that branch is modelled as the identity and excluded by `MpsseValidOp`. -/
def shift_bits_out (b : MpsseCmdBuilder) (tck_init_value is_lsb : Bool)
    (data : Nat) (len : Nat) : MpsseCmdBuilder :=
  if len = 0 then b
  else if len ≤ 8 then
    { b with
      cmd := b.cmd ++
        [MpsseShiftCmd.shiftRaw tck_init_value true is_lsb true false, len - 1, data] }
  else b

/-- `MpsseCmdBuilder::shift_bits_in` (panic branch as above). -/
def shift_bits_in (b : MpsseCmdBuilder) (tck_init_value is_lsb : Bool)
    (len : Nat) : MpsseCmdBuilder :=
  if len = 0 then b
  else if len ≤ 8 then
    { cmd := b.cmd ++
        [MpsseShiftCmd.shiftRaw tck_init_value true is_lsb false true, len - 1],
      read_len := b.read_len + 1 }
  else b

/-- `MpsseCmdBuilder::shift_bits` (panic branch as above). -/
def shift_bits (b : MpsseCmdBuilder) (tck_init_value is_lsb : Bool)
    (data : Nat) (len : Nat) : MpsseCmdBuilder :=
  if len = 0 then b
  else if len ≤ 8 then
    { cmd := b.cmd ++
        [MpsseShiftCmd.shiftRaw tck_init_value true is_lsb true true, len - 1, data],
      read_len := b.read_len + 1 }
  else b

/-- `MpsseCmdBuilder::clock_tms_out` (panic branch for `len > 7` as
above). -/
def clock_tms_out (b : MpsseCmdBuilder) (tdi : Bool) (data : Nat) (len : Nat) :
    MpsseCmdBuilder :=
  if len = 0 then b
  else if len ≤ 7 then
    { b with
      cmd := b.cmd ++
        [MpsseShiftCmd.tms_shift false, len - 1, if tdi then data ||| 0x80 else data] }
  else b

/-- `MpsseCmdBuilder::clock_tms`: TMS shift reading back one byte (panic
branch for `len > 7` as above). -/
def clock_tms (b : MpsseCmdBuilder) (tdi : Bool) (data : Nat) (len : Nat) :
    MpsseCmdBuilder :=
  if len = 0 then b
  else if len ≤ 7 then
    { cmd := b.cmd ++
        [MpsseShiftCmd.tms_shift true, len - 1, if tdi then data ||| 0x80 else data],
      read_len := b.read_len + 1 }
  else b

end MpsseCmdBuilder

/-- One byte-shift sub-command header: the shift opcode followed by the
16-bit little-endian encoding of `count - 1`. -/
def byteShiftHeader (op count : Nat) : List Nat :=
  [op, (count - 1) &&& 0xFF, ((count - 1) >>> 8) &&& 0xFF]

/-- The sub-command byte counts produced by `shift_bytes_in`'s
`while len >= MAX_BYTES_SHIFT` loop: full chunks then the remainder. -/
def inCounts (len : Nat) : List Nat :=
  List.replicate (len / MAX_BYTES_SHIFT) MAX_BYTES_SHIFT ++
    (if len % MAX_BYTES_SHIFT = 0 then [] else [len % MAX_BYTES_SHIFT])

theorem chunksFuel_flatten :
    ∀ (fuel : Nat) (l : List Nat), l.length ≤ fuel → (chunksFuel fuel l).flatten = l := by
  intro fuel
  induction fuel with
  | zero =>
    intro l h
    rw [List.eq_nil_of_length_eq_zero (Nat.le_zero.mp h)]
    rfl
  | succ n ih =>
    intro l h
    cases l with
    | nil => rfl
    | cons x xs =>
      have hlen : ((x :: xs).drop MAX_BYTES_SHIFT).length ≤ n := by
        rw [List.length_drop]
        have hM : MAX_BYTES_SHIFT = 65536 := rfl
        have := h
        simp only [List.length_cons] at this ⊢
        omega
      simp only [chunksFuel, List.flatten_cons]
      rw [ih _ hlen, List.take_append_drop]

theorem chunksMax_flatten (l : List Nat) : (chunksMax l).flatten = l :=
  chunksFuel_flatten l.length l (Nat.le_refl _)

theorem chunksFuel_mem :
    ∀ (fuel : Nat) (l c : List Nat), c ∈ chunksFuel fuel l →
      0 < c.length ∧ c.length ≤ MAX_BYTES_SHIFT := by
  intro fuel
  induction fuel with
  | zero =>
    intro l c hc
    simp [chunksFuel] at hc
  | succ n ih =>
    intro l c hc
    cases l with
    | nil => simp [chunksFuel] at hc
    | cons x xs =>
      simp only [chunksFuel, List.mem_cons] at hc
      rcases hc with hc | hc
      · subst hc
        constructor
        · simp [List.length_take, MAX_BYTES_SHIFT]
        · simp [List.length_take]
      · exact ih _ _ hc

theorem chunksMax_mem (l c : List Nat) (hc : c ∈ chunksMax l) :
    0 < c.length ∧ c.length ≤ MAX_BYTES_SHIFT :=
  chunksFuel_mem l.length l c hc

theorem chunksFuel_length :
    ∀ (fuel : Nat) (l : List Nat), l.length ≤ fuel →
      (chunksFuel fuel l).length = (l.length + 65535) / 65536 := by
  intro fuel
  induction fuel with
  | zero =>
    intro l h
    rw [List.eq_nil_of_length_eq_zero (Nat.le_zero.mp h)]
    decide
  | succ n ih =>
    intro l h
    cases l with
    | nil => rfl
    | cons x xs =>
      have hM : MAX_BYTES_SHIFT = 65536 := rfl
      simp only [chunksFuel, List.length_cons]
      rw [ih _ (by rw [List.length_drop]; simp only [List.length_cons] at h ⊢; omega)]
      rw [List.length_drop, hM]
      simp only [List.length_cons]
      rcases Nat.lt_or_ge xs.length 65536 with hlt | hge
      · have h1 : xs.length + 1 - 65536 = 0 := by omega
        rw [h1]
        have h2 : (xs.length + 1 + 65535) / 65536 = 1 := by
          apply Nat.div_eq_of_lt_le <;> omega
        rw [h2]
      · have h1 : xs.length + 1 - 65536 + 65535 + 65536 = xs.length + 1 + 65535 := by omega
        rw [← h1, Nat.add_div_right _ (by decide : 0 < 65536)]

theorem chunksMax_length (l : List Nat) :
    (chunksMax l).length = (l.length + 65535) / 65536 :=
  chunksFuel_length l.length l (Nat.le_refl _)

theorem chunksMax_map_length_sum (l : List Nat) :
    ((chunksMax l).map List.length).sum = l.length := by
  rw [← List.length_flatten, chunksMax_flatten]

/-- Decoding the 16-bit little-endian length field recovers the value. -/
theorem decode16 (n : Nat) (h : n < 65536) :
    (n &&& 0xFF) + 256 * ((n >>> 8) &&& 0xFF) = n := by
  have h255 : (0xFF : Nat) = 2 ^ 8 - 1 := by norm_num
  rw [h255, Nat.and_pow_two_sub_one_eq_mod n 8, Nat.shiftRight_eq_div_pow,
    Nat.and_pow_two_sub_one_eq_mod _ 8]
  have h2 : (2 : Nat) ^ 8 = 256 := by norm_num
  rw [h2]
  have hq : n / 256 % 256 = n / 256 := Nat.mod_eq_of_lt (by omega)
  rw [hq]
  exact Nat.mod_add_div n 256

/-- The byte stream appended by one write-only sub-command. -/
def outSub (tck_init_value is_lsb : Bool) (c : List Nat) : List Nat :=
  byteShiftHeader (MpsseShiftCmd.shiftRaw tck_init_value false is_lsb true false) c.length ++ c

/-- The byte stream appended by one read-only sub-command of `c` bytes. -/
def inSub (tck_init_value is_lsb : Bool) (c : Nat) : List Nat :=
  byteShiftHeader (MpsseShiftCmd.shiftRaw tck_init_value false is_lsb false true) c

/-- The byte stream appended by one read-write sub-command. -/
def inOutSub (tck_init_value is_lsb : Bool) (c : List Nat) : List Nat :=
  byteShiftHeader (MpsseShiftCmd.shiftRaw tck_init_value false is_lsb true true) c.length ++ c

theorem foldl_shift_bytes_out_limited (tck_init_value is_lsb : Bool) :
    ∀ (cs : List (List Nat)) (b : MpsseCmdBuilder), (∀ c ∈ cs, c ≠ []) →
      cs.foldl (fun acc s => acc.shift_bytes_out_limited tck_init_value is_lsb s) b =
        ⟨b.cmd ++ (cs.map (outSub tck_init_value is_lsb)).flatten, b.read_len⟩ := by
  intro cs
  induction cs with
  | nil =>
    intro b _
    simp [List.foldl]
  | cons c cs ih =>
    intro b hne
    have hc : c ≠ [] := hne c (List.mem_cons_self c cs)
    have hlen : ¬ c.length = 0 := fun h => hc (List.eq_nil_of_length_eq_zero h)
    simp only [List.foldl_cons]
    rw [ih _ (fun d hd => hne d (List.mem_cons_of_mem _ hd))]
    simp [MpsseCmdBuilder.shift_bytes_out_limited, hlen, outSub, byteShiftHeader]

theorem shift_bytes_out_spec (b : MpsseCmdBuilder) (tck_init_value is_lsb : Bool)
    (data : List Nat) :
    b.shift_bytes_out tck_init_value is_lsb data =
      ⟨b.cmd ++ ((chunksMax data).map (outSub tck_init_value is_lsb)).flatten,
       b.read_len⟩ := by
  apply foldl_shift_bytes_out_limited
  intro c hc
  have h := (chunksMax_mem data c hc).1
  exact fun hnil => by simp [hnil] at h

theorem foldl_shift_bytes_limited (tck_init_value is_lsb : Bool) :
    ∀ (cs : List (List Nat)) (b : MpsseCmdBuilder), (∀ c ∈ cs, c ≠ []) →
      cs.foldl (fun acc s => acc.shift_bytes_limited tck_init_value is_lsb s) b =
        ⟨b.cmd ++ (cs.map (inOutSub tck_init_value is_lsb)).flatten,
         b.read_len + (cs.map List.length).sum⟩ := by
  intro cs
  induction cs with
  | nil =>
    intro b _
    simp [List.foldl]
  | cons c cs ih =>
    intro b hne
    have hc : c ≠ [] := hne c (List.mem_cons_self c cs)
    have hlen : ¬ c.length = 0 := fun h => hc (List.eq_nil_of_length_eq_zero h)
    simp only [List.foldl_cons]
    rw [ih _ (fun d hd => hne d (List.mem_cons_of_mem _ hd))]
    simp [MpsseCmdBuilder.shift_bytes_limited, hlen, inOutSub, byteShiftHeader]
    omega

theorem shift_bytes_spec (b : MpsseCmdBuilder) (tck_init_value is_lsb : Bool)
    (data : List Nat) :
    b.shift_bytes tck_init_value is_lsb data =
      ⟨b.cmd ++ ((chunksMax data).map (inOutSub tck_init_value is_lsb)).flatten,
       b.read_len + data.length⟩ := by
  rw [MpsseCmdBuilder.shift_bytes,
    foldl_shift_bytes_limited tck_init_value is_lsb (chunksMax data) b ?hne,
    chunksMax_map_length_sum]
  case hne =>
    intro c hc
    have h := (chunksMax_mem data c hc).1
    exact fun hnil => by simp [hnil] at h


theorem shift_bytes_in_limited_pos (b : MpsseCmdBuilder) (t l : Bool) (len : Nat)
    (h : len ≠ 0) :
    b.shift_bytes_in_limited t l len = ⟨b.cmd ++ inSub t l len, b.read_len + len⟩ := by
  unfold MpsseCmdBuilder.shift_bytes_in_limited
  rw [if_neg h]
  rfl

theorem shift_bytes_inFuel_spec (tck_init_value is_lsb : Bool) :
    ∀ (fuel len : Nat) (b : MpsseCmdBuilder), len / MAX_BYTES_SHIFT ≤ fuel →
      MpsseCmdBuilder.shift_bytes_inFuel fuel b tck_init_value is_lsb len =
        ⟨b.cmd ++ ((inCounts len).map (inSub tck_init_value is_lsb)).flatten,
         b.read_len + len⟩ := by
  intro fuel
  induction fuel with
  | zero =>
    intro len b h
    have hM : MAX_BYTES_SHIFT = 65536 := rfl
    have hdiv0 : len / MAX_BYTES_SHIFT = 0 := Nat.le_zero.mp h
    have hlt : len < 65536 := (Nat.div_eq_zero_iff (by decide : 0 < 65536)).mp (hM ▸ hdiv0)
    rcases Nat.eq_zero_or_pos len with h0 | h0
    · subst h0
      simp [MpsseCmdBuilder.shift_bytes_inFuel, MpsseCmdBuilder.shift_bytes_in_limited,
        inCounts]
    · have hmod : len % MAX_BYTES_SHIFT = len := Nat.mod_eq_of_lt (by rw [hM]; omega)
      rw [MpsseCmdBuilder.shift_bytes_inFuel,
        shift_bytes_in_limited_pos _ _ _ _ (Nat.pos_iff_ne_zero.mp h0)]
      unfold inCounts
      rw [hdiv0, hmod, if_neg (Nat.pos_iff_ne_zero.mp h0)]
      rfl
  | succ n ih =>
    intro len b h
    have hM : MAX_BYTES_SHIFT = 65536 := rfl
    rcases Nat.lt_or_ge len MAX_BYTES_SHIFT with hlt | hge
    · rw [MpsseCmdBuilder.shift_bytes_inFuel]
      rw [if_neg (by omega)]
      rcases Nat.eq_zero_or_pos len with h0 | h0
      · subst h0
        simp [MpsseCmdBuilder.shift_bytes_in_limited, inCounts]
      · have hmod : len % MAX_BYTES_SHIFT = len := Nat.mod_eq_of_lt hlt
        have hdiv : len / MAX_BYTES_SHIFT = 0 := Nat.div_eq_of_lt hlt
        rw [shift_bytes_in_limited_pos _ _ _ _ (Nat.pos_iff_ne_zero.mp h0)]
        unfold inCounts
        rw [hdiv, hmod, if_neg (Nat.pos_iff_ne_zero.mp h0)]
        rfl
    · rw [MpsseCmdBuilder.shift_bytes_inFuel, if_pos hge]
      have hk : len - MAX_BYTES_SHIFT + MAX_BYTES_SHIFT = len := Nat.sub_add_cancel hge
      have hdiv : len / MAX_BYTES_SHIFT = (len - MAX_BYTES_SHIFT) / MAX_BYTES_SHIFT + 1 := by
        conv_lhs => rw [← hk]
        rw [Nat.add_div_right _ (by rw [hM]; decide)]
      have hmod : len % MAX_BYTES_SHIFT = (len - MAX_BYTES_SHIFT) % MAX_BYTES_SHIFT := by
        conv_lhs => rw [← hk]
        rw [Nat.add_mod_right]
      rw [shift_bytes_in_limited_pos _ _ _ _ (by rw [hM]; decide)]
      rw [ih (len - MAX_BYTES_SHIFT) _ (by omega)]
      have hcounts : inCounts len =
          MAX_BYTES_SHIFT :: inCounts (len - MAX_BYTES_SHIFT) := by
        unfold inCounts
        rw [hdiv, hmod, List.replicate_succ, List.cons_append]
      rw [hcounts, List.map_cons, List.flatten_cons, ← List.append_assoc,
        Nat.add_assoc, Nat.add_sub_cancel' hge]

theorem shift_bytes_in_spec (b : MpsseCmdBuilder) (tck_init_value is_lsb : Bool)
    (len : Nat) :
    b.shift_bytes_in tck_init_value is_lsb len =
      ⟨b.cmd ++ ((inCounts len).map (inSub tck_init_value is_lsb)).flatten,
       b.read_len + len⟩ :=
  shift_bytes_inFuel_spec tck_init_value is_lsb len len b (Nat.div_le_self _ _)

/-- One call on `MpsseCmdBuilder` (the public opcode-emitting methods). -/
inductive MpsseOp where
  | setClock (divisor : Nat) (clkDivBy5 : Option Bool)
  | enableLoopback (state : Bool)
  | enable3Phase (state : Bool)
  | enableAdaptive (state : Bool)
  | setGpioLower (state direction : Nat)
  | setGpioUpper (state direction : Nat)
  | gpioLower
  | gpioUpper
  | sendImmediate
  | shiftBytesOut (tck lsb : Bool) (data : List Nat)
  | shiftBytesIn (tck lsb : Bool) (len : Nat)
  | shiftBytesInOut (tck lsb : Bool) (data : List Nat)
  | shiftBitsOut (tck lsb : Bool) (data len : Nat)
  | shiftBitsIn (tck lsb : Bool) (len : Nat)
  | shiftBitsInOut (tck lsb : Bool) (data len : Nat)
  | clockTmsOut (tdi : Bool) (data len : Nat)
  | clockTmsInOut (tdi : Bool) (data len : Nat)

/-- Dispatch one builder call to its embedding. -/
def applyOp (b : MpsseCmdBuilder) : MpsseOp → MpsseCmdBuilder
  | .setClock d c5 => b.set_clock d c5
  | .enableLoopback s => b.enable_loopback s
  | .enable3Phase s => b.enable_3phase_data_clocking s
  | .enableAdaptive s => b.enable_adaptive_clocking s
  | .setGpioLower s d => b.set_gpio_lower s d
  | .setGpioUpper s d => b.set_gpio_upper s d
  | .gpioLower => b.gpio_lower
  | .gpioUpper => b.gpio_upper
  | .sendImmediate => b.send_immediate
  | .shiftBytesOut t l data => b.shift_bytes_out t l data
  | .shiftBytesIn t l len => b.shift_bytes_in t l len
  | .shiftBytesInOut t l data => b.shift_bytes t l data
  | .shiftBitsOut t l data len => b.shift_bits_out t l data len
  | .shiftBitsIn t l len => b.shift_bits_in t l len
  | .shiftBitsInOut t l data len => b.shift_bits t l data len
  | .clockTmsOut tdi data len => b.clock_tms_out tdi data len
  | .clockTmsInOut tdi data len => b.clock_tms tdi data len

/-- An operation whose arguments do not trip the source's `assert!`s:
bit shifts take at most 8 bits, TMS shifts at most 7. -/
def MpsseValidOp : MpsseOp → Bool
  | .shiftBitsOut _ _ _ len => decide (len ≤ 8)
  | .shiftBitsIn _ _ len => decide (len ≤ 8)
  | .shiftBitsInOut _ _ _ len => decide (len ≤ 8)
  | .clockTmsOut _ _ len => decide (len ≤ 7)
  | .clockTmsInOut _ _ len => decide (len ≤ 7)
  | _ => true

/-- The response-byte count the specification assigns to one operation:
1 per GPIO read, n per byte-shift-in or -inout of n bytes, 1 per nonempty
bit-shift-in or -inout or TMS-shift-inout, 0 otherwise. -/
def specResponseLen : MpsseOp → Nat
  | .gpioLower => 1
  | .gpioUpper => 1
  | .shiftBytesIn _ _ len => len
  | .shiftBytesInOut _ _ data => data.length
  | .shiftBitsIn _ _ len => if len = 0 then 0 else 1
  | .shiftBitsInOut _ _ _ len => if len = 0 then 0 else 1
  | .clockTmsInOut _ _ len => if len = 0 then 0 else 1
  | _ => 0

theorem applyOp_read_len (b : MpsseCmdBuilder) (op : MpsseOp)
    (h : MpsseValidOp op = true) :
    (applyOp b op).read_len = b.read_len + specResponseLen op := by
  cases op with
  | setClock d c5 =>
    rcases c5 with _ | b5 <;> [skip; rcases b5 with _ | _] <;>
      simp [applyOp, MpsseCmdBuilder.set_clock, specResponseLen]
  | enableLoopback s => simp [applyOp, MpsseCmdBuilder.enable_loopback, specResponseLen]
  | enable3Phase s =>
    simp [applyOp, MpsseCmdBuilder.enable_3phase_data_clocking, specResponseLen]
  | enableAdaptive s =>
    simp [applyOp, MpsseCmdBuilder.enable_adaptive_clocking, specResponseLen]
  | setGpioLower s d => simp [applyOp, MpsseCmdBuilder.set_gpio_lower, specResponseLen]
  | setGpioUpper s d => simp [applyOp, MpsseCmdBuilder.set_gpio_upper, specResponseLen]
  | gpioLower => simp [applyOp, MpsseCmdBuilder.gpio_lower, specResponseLen]
  | gpioUpper => simp [applyOp, MpsseCmdBuilder.gpio_upper, specResponseLen]
  | sendImmediate => simp [applyOp, MpsseCmdBuilder.send_immediate, specResponseLen]
  | shiftBytesOut t l data =>
    rw [applyOp, shift_bytes_out_spec]
    simp [specResponseLen]
  | shiftBytesIn t l len =>
    rw [applyOp, shift_bytes_in_spec]
    simp [specResponseLen]
  | shiftBytesInOut t l data =>
    rw [applyOp, shift_bytes_spec]
    simp [specResponseLen]
  | shiftBitsOut t l data len =>
    rcases Nat.eq_zero_or_pos len with h0 | h0
    · simp [applyOp, MpsseCmdBuilder.shift_bits_out, h0, specResponseLen]
    · have h8 : len ≤ 8 := of_decide_eq_true h
      simp [applyOp, MpsseCmdBuilder.shift_bits_out, Nat.pos_iff_ne_zero.mp h0, h8,
        specResponseLen]
  | shiftBitsIn t l len =>
    rcases Nat.eq_zero_or_pos len with h0 | h0
    · simp [applyOp, MpsseCmdBuilder.shift_bits_in, h0, specResponseLen]
    · have h8 : len ≤ 8 := of_decide_eq_true h
      simp [applyOp, MpsseCmdBuilder.shift_bits_in, Nat.pos_iff_ne_zero.mp h0, h8,
        specResponseLen]
  | shiftBitsInOut t l data len =>
    rcases Nat.eq_zero_or_pos len with h0 | h0
    · simp [applyOp, MpsseCmdBuilder.shift_bits, h0, specResponseLen]
    · have h8 : len ≤ 8 := of_decide_eq_true h
      simp [applyOp, MpsseCmdBuilder.shift_bits, Nat.pos_iff_ne_zero.mp h0, h8,
        specResponseLen]
  | clockTmsOut tdi data len =>
    rcases Nat.eq_zero_or_pos len with h0 | h0
    · simp [applyOp, MpsseCmdBuilder.clock_tms_out, h0, specResponseLen]
    · have h7 : len ≤ 7 := of_decide_eq_true h
      simp [applyOp, MpsseCmdBuilder.clock_tms_out, Nat.pos_iff_ne_zero.mp h0, h7,
        specResponseLen]
  | clockTmsInOut tdi data len =>
    rcases Nat.eq_zero_or_pos len with h0 | h0
    · simp [applyOp, MpsseCmdBuilder.clock_tms, h0, specResponseLen]
    · have h7 : len ≤ 7 := of_decide_eq_true h
      simp [applyOp, MpsseCmdBuilder.clock_tms, Nat.pos_iff_ne_zero.mp h0, h7,
        specResponseLen]

theorem foldl_applyOp_read_len :
    ∀ (ops : List MpsseOp) (b : MpsseCmdBuilder),
      (∀ op ∈ ops, MpsseValidOp op = true) →
      (ops.foldl applyOp b).read_len = b.read_len + (ops.map specResponseLen).sum := by
  intro ops
  induction ops with
  | nil =>
    intro b _
    simp
  | cons op ops ih =>
    intro b h
    simp only [List.foldl_cons, List.map_cons, List.sum_cons]
    rw [ih _ (fun o ho => h o (List.mem_cons_of_mem _ ho)),
      applyOp_read_len b op (h op (List.mem_cons_self _ _))]
    omega

/-- C1: for every sequence of valid builder operations, the final value of
the running `read_len` counter equals the sum over the sequence of the
specified per-operation response-byte counts: 1 per GPIO read, n per
byte-shift-in or -inout of length n, 1 per nonempty bit-shift-in or -inout or
TMS-shift-inout, 0 per write-only shift or non-reading opcode. -/
theorem mpsse_builder_response_len (ops : List MpsseOp)
    (h : ∀ op ∈ ops, MpsseValidOp op = true) :
    (ops.foldl applyOp MpsseCmdBuilder.new).read_len =
      (ops.map specResponseLen).sum := by
  rw [foldl_applyOp_read_len ops MpsseCmdBuilder.new h]
  exact Nat.zero_add _

/-- Concrete operation sequence exercising every reading opcode class. -/
def sampleOps : List MpsseOp :=
  [MpsseOp.gpioLower, MpsseOp.setGpioLower 3 7, MpsseOp.gpioUpper,
   MpsseOp.shiftBytesOut false true [9, 8, 7],
   MpsseOp.shiftBytesIn false true 3,
   MpsseOp.shiftBytesInOut true false [1, 2],
   MpsseOp.shiftBitsOut false true 5 4,
   MpsseOp.shiftBitsIn false true 4,
   MpsseOp.shiftBitsInOut true true 1 1,
   MpsseOp.clockTmsOut true 3 5,
   MpsseOp.clockTmsInOut true 1 1,
   MpsseOp.sendImmediate]

/-- Witness for C1 on `sampleOps`: `read_len` comes out as 10. -/
theorem mpsse_builder_response_len_witness :
    (∀ op ∈ sampleOps, MpsseValidOp op = true) ∧
    (sampleOps.foldl applyOp MpsseCmdBuilder.new).read_len =
      (sampleOps.map specResponseLen).sum ∧
    (sampleOps.map specResponseLen).sum = 10 :=
  ⟨by decide, mpsse_builder_response_len sampleOps (by decide), by decide⟩

theorem inCounts_length (len : Nat) :
    (inCounts len).length = (len + 65535) / 65536 := by
  have hM : MAX_BYTES_SHIFT = 65536 := rfl
  unfold inCounts
  simp only [hM]
  rcases Nat.eq_zero_or_pos (len % 65536) with h0 | h0
  · simp [h0]
    omega
  · simp [Nat.pos_iff_ne_zero.mp h0]
    omega

theorem inCounts_sum (len : Nat) : (inCounts len).sum = len := by
  have hM : MAX_BYTES_SHIFT = 65536 := rfl
  unfold inCounts
  simp only [hM]
  rcases Nat.eq_zero_or_pos (len % 65536) with h0 | h0
  · simp [h0, List.sum_replicate, smul_eq_mul]
    omega
  · simp [Nat.pos_iff_ne_zero.mp h0, List.sum_replicate, smul_eq_mul]
    omega

theorem inCounts_mem (len c : Nat) (hc : c ∈ inCounts len) : 0 < c ∧ c ≤ 65536 := by
  have hM : MAX_BYTES_SHIFT = 65536 := rfl
  unfold inCounts at hc
  simp only [hM] at hc
  rw [List.mem_append] at hc
  rcases hc with hc | hc
  · rw [List.eq_of_mem_replicate hc]
    omega
  · rcases Nat.eq_zero_or_pos (len % 65536) with h0 | h0
    · simp [h0] at hc
    · rw [if_neg (Nat.pos_iff_ne_zero.mp h0)] at hc
      rw [List.mem_singleton] at hc
      subst hc
      constructor
      · exact h0
      · have := Nat.mod_lt len (by decide : 0 < 65536)
        omega

/-- C5: every byte-shift request of length L (write-only, read-only and
read-write variants) is emitted as `ceil(L/65536)` sub-commands, each a
shift opcode followed by the 16-bit little-endian encoding of `count - 1`
(with `count ≤ 65536`), the counts summing to L and the concatenated
payloads reproducing the input bytes; a zero-length request appends
nothing and is not an error. -/
theorem shift_bytes_chunking :
    ∀ (tck lsb : Bool),
      (∀ data : List Nat,
        (MpsseCmdBuilder.new.shift_bytes_out tck lsb data).cmd =
            ((chunksMax data).map (outSub tck lsb)).flatten ∧
        (chunksMax data).length = (data.length + 65535) / 65536 ∧
        ((chunksMax data).map List.length).sum = data.length ∧
        (chunksMax data).flatten = data ∧
        (∀ c ∈ chunksMax data, 0 < c.length ∧ c.length ≤ 65536 ∧
          ((c.length - 1) &&& 0xFF) + 256 * (((c.length - 1) >>> 8) &&& 0xFF) =
            c.length - 1) ∧
        (data = [] → MpsseCmdBuilder.new.shift_bytes_out tck lsb data =
          MpsseCmdBuilder.new)) ∧
      (∀ data : List Nat,
        (MpsseCmdBuilder.new.shift_bytes tck lsb data).cmd =
            ((chunksMax data).map (inOutSub tck lsb)).flatten ∧
        (MpsseCmdBuilder.new.shift_bytes tck lsb data).read_len = data.length ∧
        (data = [] → MpsseCmdBuilder.new.shift_bytes tck lsb data =
          MpsseCmdBuilder.new)) ∧
      (∀ len : Nat,
        (MpsseCmdBuilder.new.shift_bytes_in tck lsb len).cmd =
            ((inCounts len).map (inSub tck lsb)).flatten ∧
        (MpsseCmdBuilder.new.shift_bytes_in tck lsb len).read_len = len ∧
        (inCounts len).length = (len + 65535) / 65536 ∧
        (inCounts len).sum = len ∧
        (∀ c ∈ inCounts len, 0 < c ∧ c ≤ 65536 ∧
          ((c - 1) &&& 0xFF) + 256 * (((c - 1) >>> 8) &&& 0xFF) = c - 1) ∧
        (len = 0 → MpsseCmdBuilder.new.shift_bytes_in tck lsb len =
          MpsseCmdBuilder.new)) := by
  intro tck lsb
  have hM : MAX_BYTES_SHIFT = 65536 := rfl
  refine ⟨fun data => ⟨?_, ?_, ?_, ?_, ?_, ?_⟩, fun data => ⟨?_, ?_, ?_⟩,
    fun len => ⟨?_, ?_, ?_, ?_, ?_, ?_⟩⟩
  · rw [shift_bytes_out_spec]
    simp [MpsseCmdBuilder.new]
  · exact chunksMax_length data
  · exact chunksMax_map_length_sum data
  · exact chunksMax_flatten data
  · intro c hc
    have h := chunksMax_mem data c hc
    rw [hM] at h
    exact ⟨h.1, h.2, decode16 (c.length - 1) (by omega)⟩
  · intro hnil
    subst hnil
    rw [shift_bytes_out_spec]
    rfl
  · rw [shift_bytes_spec]
    simp [MpsseCmdBuilder.new]
  · rw [shift_bytes_spec]
    simp [MpsseCmdBuilder.new]
  · intro hnil
    subst hnil
    rw [shift_bytes_spec]
    rfl
  · rw [shift_bytes_in_spec]
    simp [MpsseCmdBuilder.new]
  · rw [shift_bytes_in_spec]
    simp [MpsseCmdBuilder.new]
  · exact inCounts_length len
  · exact inCounts_sum len
  · intro c hc
    have h := inCounts_mem len c hc
    exact ⟨h.1, h.2, decode16 (c - 1) (by omega)⟩
  · intro h0
    subst h0
    rw [shift_bytes_in_spec]
    rfl

/-- Witness for C5: zero-length requests are no-ops and the 3-byte request
forms a single chunk. -/
theorem shift_bytes_chunking_witness :
    MpsseCmdBuilder.new.shift_bytes false false [] = MpsseCmdBuilder.new ∧
    MpsseCmdBuilder.new.shift_bytes_in false false 0 = MpsseCmdBuilder.new ∧
    (0 < ([1, 2, 3] : List Nat).length ∧ ([1, 2, 3] : List Nat).length ≤ 65536 ∧
      ((([1, 2, 3] : List Nat).length - 1) &&& 0xFF) +
        256 * (((([1, 2, 3] : List Nat).length - 1) >>> 8) &&& 0xFF) =
          ([1, 2, 3] : List Nat).length - 1) := by
  refine ⟨((shift_bytes_chunking false false).2.1 []).2.2 rfl,
    ((shift_bytes_chunking false false).2.2 0).2.2.2.2.2 rfl,
    ((shift_bytes_chunking false false).1 [1, 2, 3]).2.2.2.2.1 [1, 2, 3] (by decide)⟩

/-- `FtdiMpsse::exec`: the transport fills a response vector of exactly
`read_len` bytes; the device's bytes are supplied by the oracle. -/
def execResponse (b : MpsseCmdBuilder) (device : Nat → Nat) : List Nat :=
  (List.range b.read_len).map device

/-- Rust `copy_from_slice`: total copy that panics (`none`) unless the
two slices have the same length. -/
def copy_from_slice (dst src : List Nat) : Option (List Nat) :=
  if dst.length = src.length then some src else none

/-- The SPI bus state relevant to `transfer`: clock polarity and bit
order. -/
structure FtdiSpi where
  tck_init_value : Bool
  is_lsb : Bool

/-- `SpiBus::transfer` for `FtdiSpi`: build a simultaneous read-write
byte shift of the `write` buffer, execute it, and copy the response into
`read`. -/
def FtdiSpi.transfer (spi : FtdiSpi) (read write : List Nat) (device : Nat → Nat) :
    Option (List Nat) :=
  let cmd := MpsseCmdBuilder.new.shift_bytes spi.tck_init_value spi.is_lsb write
  let response := execResponse cmd device
  copy_from_slice read response

/-- C10: `FtdiSpi::transfer` clocks exactly `write.len()` bytes (the
command's expected response length is `write.len()`), succeeds exactly
when `read.len() = write.len()` (panicking otherwise rather than
truncating or padding), and on success the bytes copied into `read` are
the `write.len()` response bytes. -/
theorem spi_transfer_length (spi : FtdiSpi) (read write : List Nat)
    (device : Nat → Nat) :
    (MpsseCmdBuilder.new.shift_bytes spi.tck_init_value spi.is_lsb write).read_len =
        write.length ∧
    ((spi.transfer read write device).isSome ↔ read.length = write.length) ∧
    (∀ r, spi.transfer read write device = some r →
      r.length = write.length ∧
      r = execResponse
        (MpsseCmdBuilder.new.shift_bytes spi.tck_init_value spi.is_lsb write) device) := by
  have hlen :
      (MpsseCmdBuilder.new.shift_bytes spi.tck_init_value spi.is_lsb write).read_len =
        write.length := by
    rw [shift_bytes_spec]
    simp [MpsseCmdBuilder.new]
  have hresp :
      (execResponse
        (MpsseCmdBuilder.new.shift_bytes spi.tck_init_value spi.is_lsb write)
          device).length = write.length := by
    rw [execResponse, List.length_map, List.length_range, hlen]
  refine ⟨hlen, ?_, ?_⟩
  · rw [FtdiSpi.transfer, copy_from_slice]
    by_cases h : read.length =
        (execResponse
          (MpsseCmdBuilder.new.shift_bytes spi.tck_init_value spi.is_lsb write)
            device).length
    · rw [if_pos h]
      simp only [Option.isSome_some, true_iff]
      exact h.trans hresp
    · rw [if_neg h]
      simp only [Option.isSome_none, Bool.false_eq_true, false_iff]
      rw [hresp] at h
      exact h
  · intro r hr
    rw [FtdiSpi.transfer, copy_from_slice] at hr
    by_cases h : read.length =
        (execResponse
          (MpsseCmdBuilder.new.shift_bytes spi.tck_init_value spi.is_lsb write)
            device).length
    · rw [if_pos h] at hr
      cases hr
      exact ⟨hresp, rfl⟩
    · rw [if_neg h] at hr
      cases hr

/-- Witness for C10: a 2-byte transfer with matching buffers succeeds and
returns the device's 2 bytes; the mismatched case is `none`. -/
theorem spi_transfer_length_witness :
    (FtdiSpi.mk false false).transfer [0, 0] [5, 6] (fun i => 10 + i) =
        some [10, 11] ∧
    ([10, 11] : List Nat).length = ([5, 6] : List Nat).length ∧
    ((FtdiSpi.mk false false).transfer [0] [5, 6] (fun i => 10 + i)).isSome = false := by
  refine ⟨by decide, ?_, ?_⟩
  · exact ((spi_transfer_length (FtdiSpi.mk false false) [0, 0] [5, 6]
      (fun i => 10 + i)).2.2 [10, 11] (by decide)).1
  · have h := (spi_transfer_length (FtdiSpi.mk false false) [0] [5, 6]
      (fun i => 10 + i)).2.1
    rcases hs : ((FtdiSpi.mk false false).transfer [0] [5, 6] (fun i => 10 + i)).isSome with _ | _
    · rfl
    · exact absurd (h.mp (by rw [hs])) (by decide)

/-- `PinUse`: what a pin is allocated for. -/
inductive PinUse where
  | Output
  | Input
  | I2c
  | Spi
  | Jtag
  | Swd
  deriving DecidableEq

/-- `Pin`: a bank (lower or upper) and an index. -/
inductive Pin where
  | Lower (idx : Nat)
  | Upper (idx : Nat)
  deriving DecidableEq

/-- `Pin::mask`. -/
def Pin.mask : Pin → Nat
  | Pin.Lower idx => 1 <<< idx
  | Pin.Upper idx => 1 <<< idx

/-- `GpioByte`: direction and value bytes plus the allocation table. -/
structure GpioByte where
  direction : Nat
  value : Nat
  pins : List (Option PinUse)
  deriving DecidableEq

/-- The pin-registry state of `FtdiMpsse`. -/
structure FtdiMpsseState where
  lower : GpioByte
  upper : GpioByte
  deriving DecidableEq

/-- The u8 complement `!mask` of a pin mask. -/
def maskNot (m : Nat) : Nat := 0xFF ^^^ m

/-- `FtdiMpsse::free_pin` (from `mpsse.rs`): clear the usage slot, clear
the pin's value and direction bits, and emit one set-bank opcode.  The
`assert!(idx < 8)` is the only failure; it is a precondition of the
theorem below.  Returns the new state and the emitted command bytes. -/
def free_pin (s : FtdiMpsseState) (pin : Pin) : FtdiMpsseState × List Nat :=
  match pin with
  | Pin.Lower idx =>
    let value := s.lower.value &&& maskNot pin.mask
    let direction := s.lower.direction &&& maskNot pin.mask
    let lower : GpioByte := ⟨direction, value, s.lower.pins.set idx none⟩
    (⟨lower, s.upper⟩,
      (MpsseCmdBuilder.new.set_gpio_lower value direction).cmd)
  | Pin.Upper idx =>
    let value := s.upper.value &&& maskNot pin.mask
    let direction := s.upper.direction &&& maskNot pin.mask
    let upper : GpioByte := ⟨direction, value, s.upper.pins.set idx none⟩
    (⟨s.lower, upper⟩,
      (MpsseCmdBuilder.new.set_gpio_upper value direction).cmd)

theorem and_maskNot_testBit (x idx : Nat) (h : idx < 8) :
    (x &&& maskNot (1 <<< idx)).testBit idx = false := by
  rw [Nat.testBit_and, maskNot, Nat.testBit_xor, Nat.shiftLeft_eq, Nat.one_mul]
  have h1 : (0xFF : Nat) = 2 ^ 8 - 1 := by norm_num
  rw [h1, Nat.testBit_two_pow_sub_one, Nat.testBit_two_pow_self]
  simp [h]

/-- C8: for every valid pin index (< 8, the source's assertion) `free_pin`
succeeds on any prior state — allocated or not — clears the recorded
usage, clears the pin's bits in the bank's direction and value bytes, and
emits exactly one set-bank opcode carrying the new bytes. -/
theorem free_pin_idempotent (s : FtdiMpsseState) (idx : Nat) (h : idx < 8)
    (hl : s.lower.pins.length = 8) (hu : s.upper.pins.length = 8) :
    ((free_pin s (Pin.Lower idx)).1.lower.pins[idx]? = some none ∧
      (free_pin s (Pin.Lower idx)).1.lower.value.testBit idx = false ∧
      (free_pin s (Pin.Lower idx)).1.lower.direction.testBit idx = false ∧
      (free_pin s (Pin.Lower idx)).2 =
        [0x80, (free_pin s (Pin.Lower idx)).1.lower.value,
          (free_pin s (Pin.Lower idx)).1.lower.direction] ∧
      (free_pin s (Pin.Lower idx)).1.upper = s.upper) ∧
    ((free_pin s (Pin.Upper idx)).1.upper.pins[idx]? = some none ∧
      (free_pin s (Pin.Upper idx)).1.upper.value.testBit idx = false ∧
      (free_pin s (Pin.Upper idx)).1.upper.direction.testBit idx = false ∧
      (free_pin s (Pin.Upper idx)).2 =
        [0x82, (free_pin s (Pin.Upper idx)).1.upper.value,
          (free_pin s (Pin.Upper idx)).1.upper.direction] ∧
      (free_pin s (Pin.Upper idx)).1.lower = s.lower) := by
  constructor
  · refine ⟨?_, ?_, ?_, ?_, ?_⟩
    · rw [free_pin]
      exact List.getElem?_set_self (by rw [hl]; exact h)
    · exact and_maskNot_testBit _ idx h
    · exact and_maskNot_testBit _ idx h
    · rw [free_pin]
      rfl
    · rw [free_pin]
  · refine ⟨?_, ?_, ?_, ?_, ?_⟩
    · rw [free_pin]
      exact List.getElem?_set_self (by rw [hu]; exact h)
    · exact and_maskNot_testBit _ idx h
    · exact and_maskNot_testBit _ idx h
    · rw [free_pin]
      rfl
    · rw [free_pin]

/-- Witness for C8 on a state where pin 2 was never allocated but has its
bits set: freeing it still succeeds and zeroes everything. -/
theorem free_pin_idempotent_witness :
    (free_pin
        ⟨⟨0xFF, 0xFF, List.replicate 8 (none : Option PinUse)⟩,
         ⟨0, 0, List.replicate 8 (none : Option PinUse)⟩⟩
        (Pin.Lower 2)).1.lower.value.testBit 2 = false ∧
    (free_pin
        ⟨⟨0xFF, 0xFF, List.replicate 8 (none : Option PinUse)⟩,
         ⟨0, 0, List.replicate 8 (none : Option PinUse)⟩⟩
        (Pin.Lower 2)).1.lower.pins[2]? = some none :=
  have h := free_pin_idempotent
    ⟨⟨0xFF, 0xFF, List.replicate 8 (none : Option PinUse)⟩,
     ⟨0, 0, List.replicate 8 (none : Option PinUse)⟩⟩ 2
    (by decide) (by decide) (by decide)
  ⟨h.1.2.1, h.1.1⟩

/-- One `embedded-hal` SPI operation as passed to
`FtdiSpiDevice::transaction` (buffers are represented by their contents,
read buffers by their length). -/
inductive SpiOperation where
  | read (len : Nat)
  | write (bytes : List Nat)
  | transfer (readLen : Nat) (bytes : List Nat)
  | transferInPlace (bytes : List Nat)
  | delayNs (ns : Nat)

/-- The build phase of `FtdiSpiDevice::transaction` for one operation. -/
def buildSpiOp (tck_init_value is_lsb : Bool) (b : MpsseCmdBuilder) :
    SpiOperation → MpsseCmdBuilder
  | SpiOperation.read len => b.shift_bytes_in tck_init_value is_lsb len
  | SpiOperation.write bytes => b.shift_bytes_out tck_init_value is_lsb bytes
  | SpiOperation.transfer _ bytes => b.shift_bytes tck_init_value is_lsb bytes
  | SpiOperation.transferInPlace bytes => b.shift_bytes tck_init_value is_lsb bytes
  | SpiOperation.delayNs _ => b

/-- Rust slice indexing `l[a..b]`: panics (`none`) unless `a <= b` and
`b <= l.len()`. -/
def rustSlice (l : List Nat) (a b : Nat) : Option (List Nat) :=
  if a ≤ b ∧ b ≤ l.length then some ((l.drop a).take (b - a)) else none

/-- The scatter phase of `FtdiSpiDevice::transaction`: each read-producing
operation `x` copies `response[len .. x.len()]` into its buffer (the
source's slice bounds) and advances `len` by `x.len()`. -/
def scatterSpiOps (response : List Nat) :
    List SpiOperation → Nat → Option (List (List Nat))
  | [], _ => some []
  | op :: ops, len =>
    match op with
    | SpiOperation.read n =>
      match rustSlice response len n with
      | none => none
      | some src =>
        match copy_from_slice (List.replicate n 0) src with
        | none => none
        | some buf =>
          match scatterSpiOps response ops (len + n) with
          | none => none
          | some rest => some (buf :: rest)
    | SpiOperation.transfer n _ =>
      match rustSlice response len n with
      | none => none
      | some src =>
        match copy_from_slice (List.replicate n 0) src with
        | none => none
        | some buf =>
          match scatterSpiOps response ops (len + n) with
          | none => none
          | some rest => some (buf :: rest)
    | SpiOperation.transferInPlace bytes =>
      match rustSlice response len bytes.length with
      | none => none
      | some src =>
        match copy_from_slice bytes src with
        | none => none
        | some buf =>
          match scatterSpiOps response ops (len + bytes.length) with
          | none => none
          | some rest => some (buf :: rest)
    | SpiOperation.write _ =>
      scatterSpiOps response ops len
    | SpiOperation.delayNs _ =>
      scatterSpiOps response ops len

/-- `FtdiSpiDevice::transaction`: drive CS (lower pin 3) low, build the
whole batch into one command, restore CS, run the single exchange, then
scatter the response into the read-producing buffers.  Returns the list
of filled read buffers, or `none` when the scatter panics. -/
def spiDeviceTransaction (tck_init_value is_lsb : Bool)
    (lowerValue lowerDirection : Nat) (ops : List SpiOperation)
    (device : Nat → Nat) : Option (List (List Nat)) :=
  let b0 := MpsseCmdBuilder.new.set_gpio_lower
    (lowerValue &&& maskNot (Pin.Lower 3).mask) lowerDirection
  let b1 := ops.foldl (buildSpiOp tck_init_value is_lsb) b0
  let b2 := b1.set_gpio_lower lowerValue lowerDirection
  let response := execResponse b2 device
  scatterSpiOps response ops 0

/-- C6 (code bug): a batch of two 1-byte reads panics in the scatter
phase.  The command stream requests 2 response bytes and the device
returns `[10, 11]`; the single-read batch correctly receives `[10]`, but
with two reads the second scatter slices `response[1..1]` (the source
uses `x.len()` as the end bound instead of `len + x.len()`), and
`copy_from_slice` panics on the length mismatch instead of delivering
`response[1..2] = [11]`. -/
theorem spi_device_transaction_scatter_bug :
    spiDeviceTransaction false false 0x08 0x0B
        [SpiOperation.read 1] (fun i => 10 + i) = some [[10]] ∧
    (MpsseCmdBuilder.new.set_gpio_lower 0x08 0x0B |>.shift_bytes_in false false 1
      |>.shift_bytes_in false false 1).read_len = 2 ∧
    spiDeviceTransaction false false 0x08 0x0B
        [SpiOperation.read 1, SpiOperation.read 1] (fun i => 10 + i) = none := by
  refine ⟨by decide, by decide, by decide⟩

/-- Loop state of the IDCODE chain interpreter shared by
`FtdiJtag::scan_with` and `JtagDetectTdi::scan_with`. -/
structure ScanState where
  idcodes : List (Option Nat)
  current_id : Nat
  bit_count : Nat
  consecutive_bypass : Nat
  deriving DecidableEq

/-- One iteration of the `for tdo_val in tdos` loop body: a 0 bit seen
with `bit_count == 0` records a bypass marker, otherwise the bit is
accumulated MSB-inward (`current_id >> 1 | tdo << 31`); the boolean is
`true` when one of the two `break 'outer` conditions fired (32
consecutive bypass bits, or a completed IDCODE equal to all-ones). -/
def scanStep (s : ScanState) (tdo_val : Bool) : ScanState × Bool :=
  let s1 :=
    if s.bit_count = 0 ∧ tdo_val = false then
      { s with idcodes := s.idcodes ++ [none],
               consecutive_bypass := s.consecutive_bypass + 1 }
    else
      { s with current_id := s.current_id >>> 1 ||| (if tdo_val then 0x80000000 else 0),
               bit_count := s.bit_count + 1,
               consecutive_bypass := 0 }
  if s1.consecutive_bypass = 32 then (s1, true)
  else if s1.bit_count = 32 then
    if s1.current_id = 0xFFFFFFFF then (s1, true)
    else ({ s1 with idcodes := s1.idcodes ++ [some s1.current_id], bit_count := 0 }, false)
  else (s1, false)

/-- Run the interpreter over a TDO bit stream, stopping as soon as a
termination condition fires (`break 'outer`); the boolean reports
termination. -/
def runScan : List Bool → ScanState → ScanState × Bool
  | [], s => (s, false)
  | b :: bs, s =>
    if (scanStep s b).2 = true then scanStep s b
    else runScan bs (scanStep s b).1

/-- The interpreter's initial state. -/
def initScan : ScanState := ⟨[], 0, 0, 0⟩

/-- The little-endian value of a bit list (first bit = LSB). -/
def valLE : List Bool → Nat
  | [] => 0
  | b :: bs => (if b then 1 else 0) + 2 * valLE bs

/-- The `n` low bits of `v`, least significant first: the order in which
a 32-bit IDCODE appears on TDO. -/
def bitsLE : Nat → Nat → List Bool
  | 0, _ => []
  | n + 1, v => decide (v % 2 = 1) :: bitsLE n (v / 2)

theorem runScan_cons_stop (b : Bool) (bs : List Bool) (s s1 : ScanState)
    (h : scanStep s b = (s1, true)) : runScan (b :: bs) s = (s1, true) := by
  simp only [runScan, h]
  rfl

theorem runScan_cons_go (b : Bool) (bs : List Bool) (s s1 : ScanState)
    (h : scanStep s b = (s1, false)) : runScan (b :: bs) s = runScan bs s1 := by
  simp only [runScan, h]
  rfl

theorem runScan_append_stop (l1 l2 : List Bool) :
    ∀ s s1 : ScanState, runScan l1 s = (s1, true) →
      runScan (l1 ++ l2) s = (s1, true) := by
  induction l1 with
  | nil =>
    intro s s1 h
    simp [runScan] at h
  | cons b bs ih =>
    intro s s1 h
    rcases hsb : scanStep s b with ⟨t, stop⟩
    cases stop
    · rw [runScan_cons_go _ _ _ _ hsb] at h
      rw [List.cons_append, runScan_cons_go _ _ _ _ hsb]
      exact ih t s1 h
    · rw [runScan_cons_stop _ _ _ _ hsb] at h
      rw [List.cons_append, runScan_cons_stop _ _ _ _ hsb]
      exact h

theorem runScan_append_go (l1 l2 : List Bool) :
    ∀ s s1 : ScanState, runScan l1 s = (s1, false) →
      runScan (l1 ++ l2) s = runScan l2 s1 := by
  induction l1 with
  | nil =>
    intro s s1 h
    simp only [runScan] at h
    cases h
    rfl
  | cons b bs ih =>
    intro s s1 h
    rcases hsb : scanStep s b with ⟨t, stop⟩
    cases stop
    · rw [runScan_cons_go _ _ _ _ hsb] at h
      rw [List.cons_append, runScan_cons_go _ _ _ _ hsb]
      exact ih t s1 h
    · rw [runScan_cons_stop _ _ _ _ hsb] at h
      cases h

theorem bitsLE_length : ∀ (n v : Nat), (bitsLE n v).length = n := by
  intro n
  induction n with
  | zero => intro v; rfl
  | succ m ih => intro v; simp [bitsLE, ih]

theorem valLE_bitsLE : ∀ (n v : Nat), valLE (bitsLE n v) = v % 2 ^ n := by
  intro n
  induction n with
  | zero => intro v; simp [bitsLE, valLE, Nat.mod_one]
  | succ m ih =>
    intro v
    rw [bitsLE, valLE, ih]
    have hmul : v % (2 * 2 ^ m) = v % 2 + 2 * (v / 2 % 2 ^ m) := Nat.mod_mul
    have hpow : (2 : Nat) ^ (m + 1) = 2 * 2 ^ m := by
      rw [Nat.pow_succ, Nat.mul_comm]
    rw [hpow, hmul]
    rcases Nat.mod_two_eq_zero_or_one v with h2 | h2 <;> rw [h2] <;> simp

theorem valLE_lt : ∀ l : List Bool, valLE l < 2 ^ l.length := by
  intro l
  induction l with
  | nil => decide
  | cons b bs ih =>
    rw [valLE, List.length_cons, Nat.pow_succ]
    cases b <;> simp <;> omega

theorem valLE_replicate_true : ∀ n : Nat, valLE (List.replicate n true) = 2 ^ n - 1 := by
  intro n
  induction n with
  | zero => rfl
  | succ m ih =>
    rw [List.replicate_succ, valLE, ih, Nat.pow_succ]
    have := Nat.two_pow_pos m
    simp only [if_pos]
    omega

/-- The accumulation identity: shifting `b` into the top of `cur`. -/
theorem scanStep_accum_val (cur : Nat) (b : Bool) (h : cur < 2 ^ 32) :
    cur >>> 1 ||| (if b then 0x80000000 else 0) =
      cur / 2 + (if b then 1 else 0) * 2 ^ 31 := by
  have hdiv : cur >>> 1 = cur / 2 := by
    rw [Nat.shiftRight_eq_div_pow, Nat.pow_one]
  cases b
  · simp [hdiv]
  · have hlt : cur / 2 < 2 ^ 31 := by
      have h32 : (2 : Nat) ^ 32 = 4294967296 := by norm_num
      have h31 : (2 : Nat) ^ 31 = 2147483648 := by norm_num
      omega
    have hor := Nat.mul_add_lt_is_or hlt 1
    have h31 : (0x80000000 : Nat) = 2 ^ 31 * 1 := by norm_num
    rw [hdiv]
    show cur / 2 ||| 0x80000000 = cur / 2 + 1 * 2 ^ 31
    rw [Nat.lor_comm, h31, ← hor]
    ring

theorem scanStep_shift (acc : List (Option Nat)) (cur k cz : Nat) (b : Bool)
    (hk : ¬(k = 0 ∧ b = false)) :
    scanStep ⟨acc, cur, k, cz⟩ b =
      (if k + 1 = 32 then
        if cur >>> 1 ||| (if b then 0x80000000 else 0) = 0xFFFFFFFF then
          (⟨acc, cur >>> 1 ||| (if b then 0x80000000 else 0), k + 1, 0⟩, true)
        else
          (⟨acc ++ [some (cur >>> 1 ||| (if b then 0x80000000 else 0))],
            cur >>> 1 ||| (if b then 0x80000000 else 0), 0, 0⟩, false)
       else (⟨acc, cur >>> 1 ||| (if b then 0x80000000 else 0), k + 1, 0⟩, false)) := by
  unfold scanStep
  rw [if_neg hk]
  dsimp only
  rw [if_neg (by decide : ¬(0 = 32))]

theorem scanStep_bypass (acc : List (Option Nat)) (cur cz : Nat) :
    scanStep ⟨acc, cur, 0, cz⟩ false =
      (⟨acc ++ [none], cur, 0, cz + 1⟩, if cz + 1 = 32 then true else false) := by
  unfold scanStep
  rw [if_pos (And.intro rfl rfl)]
  dsimp only
  by_cases h : cz + 1 = 32
  · rw [if_pos h, if_pos h]
  · rw [if_neg h, if_neg (by decide : ¬(0 = 32)), if_neg h]

theorem runScan_accum :
    ∀ (l : List Bool) (k : Nat) (acc : List (Option Nat)) (cur : Nat),
      1 ≤ k → k + l.length = 32 → k ≤ 31 → cur < 2 ^ 32 →
      runScan l ⟨acc, cur, k, 0⟩ =
        (if cur / 2 ^ l.length + valLE l * 2 ^ (32 - l.length) = 0xFFFFFFFF then
          (⟨acc, cur / 2 ^ l.length + valLE l * 2 ^ (32 - l.length), 32, 0⟩, true)
         else
          (⟨acc ++ [some (cur / 2 ^ l.length + valLE l * 2 ^ (32 - l.length))],
            cur / 2 ^ l.length + valLE l * 2 ^ (32 - l.length), 0, 0⟩, false)) := by
  intro l
  induction l with
  | nil =>
    intro k acc cur h1 h2 h3 _
    simp only [List.length_nil] at h2
    omega
  | cons b rest ih =>
    intro k acc cur h1 h2 h3 h4
    have hk : ¬(k = 0 ∧ b = false) := fun hc => by omega
    have hcur2 : cur >>> 1 ||| (if b then 0x80000000 else 0) =
        cur / 2 + (if b then 1 else 0) * 2 ^ 31 := scanStep_accum_val cur b h4
    cases rest with
    | nil =>
      have h31 : k = 31 := by
        simp only [List.length_cons, List.length_nil] at h2
        omega
      subst h31
      have hval : cur / 2 + (if b then 1 else 0) * 2 ^ 31 =
          cur / 2 ^ ([b] : List Bool).length +
            valLE [b] * 2 ^ (32 - ([b] : List Bool).length) := by
        simp [valLE]
      rw [hval] at hcur2
      have hstep : scanStep ⟨acc, cur, 31, 0⟩ b =
          (if cur / 2 ^ ([b] : List Bool).length +
              valLE [b] * 2 ^ (32 - ([b] : List Bool).length) = 0xFFFFFFFF then
            (⟨acc, cur / 2 ^ ([b] : List Bool).length +
              valLE [b] * 2 ^ (32 - ([b] : List Bool).length), 31 + 1, 0⟩, true)
          else
            (⟨acc ++ [some (cur / 2 ^ ([b] : List Bool).length +
                valLE [b] * 2 ^ (32 - ([b] : List Bool).length))],
              cur / 2 ^ ([b] : List Bool).length +
                valLE [b] * 2 ^ (32 - ([b] : List Bool).length), 0, 0⟩, false)) := by
        rw [scanStep_shift _ _ _ _ _ hk, if_pos rfl, hcur2]
      by_cases hmax : cur / 2 ^ ([b] : List Bool).length +
          valLE [b] * 2 ^ (32 - ([b] : List Bool).length) = 0xFFFFFFFF
      · rw [if_pos hmax] at hstep
        rw [runScan_cons_stop _ _ _ _ hstep, if_pos hmax]
      · rw [if_neg hmax] at hstep
        rw [runScan_cons_go _ _ _ _ hstep, if_neg hmax]
        simp only [runScan]
    | cons c rest2 =>
      have hk31 : k + 1 ≤ 31 := by
        simp only [List.length_cons] at h2
        omega
      have hstep : scanStep ⟨acc, cur, k, 0⟩ b =
          (⟨acc, cur / 2 + (if b then 1 else 0) * 2 ^ 31, k + 1, 0⟩, false) := by
        rw [scanStep_shift _ _ _ _ _ hk, if_neg (by omega : ¬(k + 1 = 32)), hcur2]
      rw [runScan_cons_go _ _ _ _ hstep]
      have hcur4 : cur / 2 + (if b then 1 else 0) * 2 ^ 31 < 2 ^ 32 := by
        have h32 : (2 : Nat) ^ 32 = 4294967296 := by norm_num
        have h31 : (2 : Nat) ^ 31 = 2147483648 := by norm_num
        cases b <;> simp <;> omega
      rw [ih (k + 1) acc (cur / 2 + (if b then 1 else 0) * 2 ^ 31)
        (by omega) (by simp only [List.length_cons] at h2 ⊢; omega) hk31 hcur4]
      have harith :
          (cur / 2 + (if b then 1 else 0) * 2 ^ 31) / 2 ^ (c :: rest2).length +
            valLE (c :: rest2) * 2 ^ (32 - (c :: rest2).length) =
          cur / 2 ^ (b :: c :: rest2).length +
            valLE (b :: c :: rest2) * 2 ^ (32 - (b :: c :: rest2).length) := by
        set r := (c :: rest2 : List Bool).length with hr
        have hrpos : 1 ≤ r := by simp [hr]
        have hrle : r ≤ 30 := by
          simp only [List.length_cons] at h2
          simp only [hr, List.length_cons]
          omega
        have hsplit : (2 : Nat) ^ 31 = 2 ^ (31 - r) * 2 ^ r := by
          rw [← Nat.pow_add]
          congr 1
          omega
        have h2r : (2 : Nat) * 2 ^ r = 2 ^ (r + 1) := by
          rw [Nat.pow_succ, Nat.mul_comm]
        have hdd : (cur / 2 + (if b then 1 else 0) * 2 ^ 31) / 2 ^ r =
            cur / 2 ^ (r + 1) + (if b then 1 else 0) * 2 ^ (31 - r) := by
          rw [hsplit, ← Nat.mul_assoc,
            Nat.add_mul_div_right _ _ (Nat.two_pow_pos r),
            Nat.div_div_eq_div_mul, h2r]
        rw [hdd]
        rw [show ((b :: c :: rest2 : List Bool)).length = r + 1 from by
          simp [hr]]
        rw [show valLE (b :: c :: rest2) =
          (if b then 1 else 0) + 2 * valLE (c :: rest2) from rfl]
        rw [show 32 - (r + 1) = 31 - r from by omega]
        rw [show (2 : Nat) ^ (32 - r) = 2 * 2 ^ (31 - r) from by
          rw [← pow_succ']
          congr 1
          omega]
        ring
      rw [harith]

theorem runScan_idcode (id : Nat) (hlt : id < 2 ^ 32) (hodd : id % 2 = 1)
    (hmax : id ≠ 0xFFFFFFFF) (acc : List (Option Nat)) (cur : Nat)
    (hcur : cur < 2 ^ 32) (cz : Nat) :
    runScan (bitsLE 32 id) ⟨acc, cur, 0, cz⟩ = (⟨acc ++ [some id], id, 0, 0⟩, false) := by
  have hb0 : bitsLE 32 id = true :: bitsLE 31 (id / 2) := by
    have h : bitsLE 32 id = decide (id % 2 = 1) :: bitsLE 31 (id / 2) := rfl
    rw [h, hodd]
    simp
  have hstep : scanStep ⟨acc, cur, 0, cz⟩ true =
      (⟨acc, cur / 2 + (if true then 1 else 0) * 2 ^ 31, 0 + 1, 0⟩, false) := by
    rw [scanStep_shift _ _ _ _ _ (by simp), if_neg (by decide : ¬(0 + 1 = 32)),
      scanStep_accum_val cur true hcur]
  rw [hb0, runScan_cons_go _ _ _ _ hstep]
  have h32 : (2 : Nat) ^ 32 = 4294967296 := by norm_num
  have h31 : (2 : Nat) ^ 31 = 2147483648 := by norm_num
  have hbound : cur / 2 + (if true then 1 else 0) * 2 ^ 31 < 2 ^ 32 := by
    simp only [if_pos]
    omega
  rw [runScan_accum (bitsLE 31 (id / 2)) (0 + 1) acc _ (by decide)
    (by rw [bitsLE_length]) (by decide) hbound]
  have hfin : (cur / 2 + (if true then 1 else 0) * 2 ^ 31) /
        2 ^ (bitsLE 31 (id / 2)).length +
      valLE (bitsLE 31 (id / 2)) * 2 ^ (32 - (bitsLE 31 (id / 2)).length) = id := by
    rw [bitsLE_length, valLE_bitsLE]
    simp only [if_pos, Nat.one_mul]
    have e1 : (cur / 2 + 2 ^ 31) / 2 ^ 31 = 1 := by
      rw [Nat.add_div_right _ (Nat.two_pow_pos 31), Nat.div_div_eq_div_mul]
      have h2 : (2 : Nat) * 2 ^ 31 = 2 ^ 32 := by norm_num
      rw [h2, Nat.div_eq_of_lt hcur]
    have e2 : id / 2 % 2 ^ 31 = id / 2 := Nat.mod_eq_of_lt (by omega)
    rw [e1, e2]
    have h1 : (32 : Nat) - 31 = 1 := by norm_num
    rw [h1, Nat.pow_one]
    omega
  rw [hfin, if_neg hmax]

theorem runScan_zeros :
    ∀ (n : Nat) (acc : List (Option Nat)) (cur cz : Nat), cz < 32 → 32 ≤ cz + n →
      runScan (List.replicate n false) ⟨acc, cur, 0, cz⟩ =
        (⟨acc ++ List.replicate (32 - cz) none, cur, 0, 32⟩, true) := by
  intro n
  induction n with
  | zero =>
    intro acc cur cz h1 h2
    omega
  | succ m ih =>
    intro acc cur cz h1 h2
    have hstep := scanStep_bypass acc cur cz
    by_cases h : cz + 1 = 32
    · rw [if_pos h] at hstep
      rw [List.replicate_succ, runScan_cons_stop _ _ _ _ hstep]
      have hz : 32 - cz = 1 := by omega
      rw [hz, h]
      rfl
    · rw [if_neg h] at hstep
      rw [List.replicate_succ, runScan_cons_go _ _ _ _ hstep,
        ih _ _ _ (by omega) (by omega)]
      have hz : 32 - cz = (32 - (cz + 1)) + 1 := by omega
      rw [hz, List.replicate_succ, List.append_assoc]
      rfl

theorem runScan_ones (acc : List (Option Nat)) (cur cz : Nat) (hcur : cur < 2 ^ 32) :
    runScan (List.replicate 32 true) ⟨acc, cur, 0, cz⟩ =
      (⟨acc, 0xFFFFFFFF, 32, 0⟩, true) := by
  have hrep : (List.replicate 32 true : List Bool) = true :: List.replicate 31 true := rfl
  have hstep : scanStep ⟨acc, cur, 0, cz⟩ true =
      (⟨acc, cur / 2 + (if true then 1 else 0) * 2 ^ 31, 0 + 1, 0⟩, false) := by
    rw [scanStep_shift _ _ _ _ _ (by simp), if_neg (by decide : ¬(0 + 1 = 32)),
      scanStep_accum_val cur true hcur]
  rw [hrep, runScan_cons_go _ _ _ _ hstep]
  have h32 : (2 : Nat) ^ 32 = 4294967296 := by norm_num
  have h31 : (2 : Nat) ^ 31 = 2147483648 := by norm_num
  have hbound : cur / 2 + (if true then 1 else 0) * 2 ^ 31 < 2 ^ 32 := by
    simp only [if_pos]
    omega
  rw [runScan_accum (List.replicate 31 true) (0 + 1) acc _ (by decide)
    (by rw [List.length_replicate]) (by decide) hbound]
  have hfin : (cur / 2 + (if true then 1 else 0) * 2 ^ 31) /
        2 ^ (List.replicate 31 true : List Bool).length +
      valLE (List.replicate 31 true) *
        2 ^ (32 - (List.replicate 31 true : List Bool).length) = 0xFFFFFFFF := by
    rw [List.length_replicate, valLE_replicate_true]
    simp only [if_pos, Nat.one_mul]
    have e1 : (cur / 2 + 2 ^ 31) / 2 ^ 31 = 1 := by
      rw [Nat.add_div_right _ (Nat.two_pow_pos 31), Nat.div_div_eq_div_mul]
      have h2 : (2 : Nat) * 2 ^ 31 = 2 ^ 32 := by norm_num
      rw [h2, Nat.div_eq_of_lt hcur]
    rw [e1]
    norm_num
  rw [hfin, if_pos rfl]

theorem jtag_scan_chain_aux :
    ∀ (ids : List Nat) (acc : List (Option Nat)) (cur : Nat),
      (∀ id ∈ ids, id < 2 ^ 32 ∧ id % 2 = 1 ∧ id ≠ 0xFFFFFFFF) → cur < 2 ^ 32 →
      ∃ c, runScan ((ids.map (bitsLE 32)).flatten ++ List.replicate 32 false)
          ⟨acc, cur, 0, 0⟩ =
        (⟨acc ++ ids.map some ++ List.replicate 32 none, c, 0, 32⟩, true) := by
  intro ids
  induction ids with
  | nil =>
    intro acc cur _ _
    refine ⟨cur, ?_⟩
    simp only [List.map_nil, List.flatten_nil, List.nil_append, List.append_nil]
    have h := runScan_zeros 32 acc cur 0 (by decide) (by decide)
    simpa using h
  | cons id rest ih =>
    intro acc cur h hcur
    have hid := h id (List.mem_cons_self _ _)
    obtain ⟨c, hc⟩ := ih (acc ++ [some id]) id
      (fun i hi => h i (List.mem_cons_of_mem _ hi)) hid.1
    refine ⟨c, ?_⟩
    simp only [List.map_cons, List.flatten_cons, List.append_assoc]
    rw [runScan_append_go _ _ _ _
      (runScan_idcode id hid.1 hid.2.1 hid.2.2 acc cur hcur 0)]
    rw [hc]
    simp [List.append_assoc]

/-- C4 (counterexample): on the TDO stream of a single IDCODE
`0x3BA00477` followed by 32 zero bits, the chain interpretation returns
the IDCODE *followed by 32 bypass markers* (`none` entries) pushed while
counting the terminating zeros — not the bare one-element list the claim
asserts. -/
theorem jtag_scan_none_counterexample :
    (runScan (bitsLE 32 0x3BA00477 ++ List.replicate 32 false) initScan).1.idcodes =
        [some 0x3BA00477] ++ List.replicate 32 none ∧
    none ∈ (runScan (bitsLE 32 0x3BA00477 ++ List.replicate 32 false) initScan).1.idcodes ∧
    ([some 0x3BA00477] ++ List.replicate 32 none : List (Option Nat)) ≠
      [some 0x3BA00477] := by
  refine ⟨by decide, by decide, by decide⟩

/-- C4 (amended): for a TDO stream of k concatenated valid IDCODEs (each
below `2^32`, odd — a device slot starts with a 1 bit — and not all-ones)
followed by 32 zero bits, the chain interpretation terminates and returns
exactly those k IDCODEs in order, followed by exactly the 32 `none`
markers recorded while detecting the 32 terminating zeros; no other
bypass markers appear. -/
theorem jtag_scan_idcode_chain (ids : List Nat)
    (h : ∀ id ∈ ids, id < 2 ^ 32 ∧ id % 2 = 1 ∧ id ≠ 0xFFFFFFFF) :
    (runScan ((ids.map (bitsLE 32)).flatten ++ List.replicate 32 false)
        initScan).1.idcodes = ids.map some ++ List.replicate 32 none ∧
    (runScan ((ids.map (bitsLE 32)).flatten ++ List.replicate 32 false)
        initScan).2 = true := by
  obtain ⟨c, hc⟩ := jtag_scan_chain_aux ids [] 0 h (by decide)
  rw [initScan, hc]
  simp

/-- Witness for C4's amended claim at the single Cortex-M DAP IDCODE. -/
theorem jtag_scan_idcode_chain_witness :
    (runScan ((([0x3BA00477] : List Nat).map (bitsLE 32)).flatten ++
        List.replicate 32 false) initScan).1.idcodes =
      ([0x3BA00477] : List Nat).map some ++ List.replicate 32 none :=
  (jtag_scan_idcode_chain [0x3BA00477] (by decide)).1

/-- One device on a JTAG chain: an IDCODE device or one in bypass. -/
inductive JtagDevice where
  | idcode (id : Nat)
  | bypass
  deriving DecidableEq

/-- A device carries a valid IDCODE: below `2^32`, LSB set (IDCODE
registers always start with a 1 bit), and not all-ones. -/
def validDevice : JtagDevice → Bool
  | JtagDevice.idcode id =>
    decide (id < 2 ^ 32) && decide (id % 2 = 1) && decide (id ≠ 0xFFFFFFFF)
  | JtagDevice.bypass => true

/-- The captured register bits one device shifts out, LSB first. -/
def deviceBits (tdi? : JtagDevice) : List Bool :=
  match tdi? with
  | JtagDevice.idcode id => bitsLE 32 id
  | JtagDevice.bypass => [false]

/-- The scanner entry a device produces: `some id` or a bypass marker. -/
def deviceMark : JtagDevice → Option Nat
  | JtagDevice.idcode id => some id
  | JtagDevice.bypass => none

/-- Modelled from the spec: the TDO stream of a Shift-DR chain scan with
the correct pinout (spec 4.7-4.8) — the chain hardware is external to the
repository.  Devices appear nearest-TDO first; each first shifts out its
captured register (its 32 IDCODE bits, or the single 0 a bypass register
captures), after which the constant TDI value fills the stream; 32
trailing TDI bits suffice to fire either termination condition. -/
def chainStream (chain : List JtagDevice) (tdi : Bool) : List Bool :=
  (chain.map deviceBits).flatten ++ List.replicate 32 tdi

/-- Every run of consecutive bypass devices (continuing `cz` bypass bits
already counted) stays below the scanner's 32-bit termination limit. -/
def bypassRunsOk : List JtagDevice → Nat → Bool
  | [], _ => true
  | JtagDevice.bypass :: rest, cz => decide (cz + 1 < 32) && bypassRunsOk rest (cz + 1)
  | JtagDevice.idcode _ :: rest, _ => bypassRunsOk rest 0

/-- The length of the chain's trailing (TDI-adjacent) bypass run,
continued from `cz`. -/
def trailingBypass : List JtagDevice → Nat → Nat
  | [], cz => cz
  | JtagDevice.bypass :: rest, cz => trailingBypass rest (cz + 1)
  | JtagDevice.idcode _ :: rest, _ => trailingBypass rest 0

/-- `JtagDetectTdi::scan_with` on the modelled chain: the list of
recorded entries. -/
def scanChain (chain : List JtagDevice) (tdi : Bool) : List (Option Nat) :=
  (runScan (chainStream chain tdi) initScan).1.idcodes

theorem trailingBypass_lt :
    ∀ (chain : List JtagDevice) (cz : Nat), bypassRunsOk chain cz = true →
      cz < 32 → trailingBypass chain cz < 32 := by
  intro chain
  induction chain with
  | nil =>
    intro cz _ h2
    exact h2
  | cons d rest ih =>
    intro cz h1 h2
    cases d with
    | idcode id =>
      rw [trailingBypass]
      exact ih 0 h1 (by decide)
    | bypass =>
      rw [bypassRunsOk, Bool.and_eq_true, decide_eq_true_eq] at h1
      rw [trailingBypass]
      exact ih (cz + 1) h1.2 h1.1

theorem runScan_sections :
    ∀ (chain : List JtagDevice) (acc : List (Option Nat)) (cur cz : Nat),
      (∀ d ∈ chain, validDevice d = true) →
      bypassRunsOk chain cz = true → cur < 2 ^ 32 → cz < 32 →
      ∃ c, c < 2 ^ 32 ∧
        runScan (chain.map deviceBits).flatten ⟨acc, cur, 0, cz⟩ =
          (⟨acc ++ chain.map deviceMark, c, 0, trailingBypass chain cz⟩, false) := by
  intro chain
  induction chain with
  | nil =>
    intro acc cur cz _ _ hcur _
    refine ⟨cur, hcur, ?_⟩
    simp [runScan, trailingBypass]
  | cons d rest ih =>
    intro acc cur cz hv hruns hcur hcz
    cases d with
    | idcode id =>
      have hval := hv (JtagDevice.idcode id) (List.mem_cons_self _ _)
      simp only [validDevice, Bool.and_eq_true, decide_eq_true_eq] at hval
      obtain ⟨c, hc, hrun⟩ := ih (acc ++ [some id]) id 0
        (fun x hx => hv x (List.mem_cons_of_mem _ hx))
        (by rw [bypassRunsOk] at hruns; exact hruns) hval.1.1 (by decide)
      refine ⟨c, hc, ?_⟩
      simp only [List.map_cons, List.flatten_cons, deviceBits]
      rw [runScan_append_go _ _ _ _
        (runScan_idcode id hval.1.1 hval.1.2 hval.2 acc cur hcur cz)]
      rw [hrun]
      simp [deviceMark, trailingBypass, List.append_assoc]
    | bypass =>
      rw [bypassRunsOk, Bool.and_eq_true, decide_eq_true_eq] at hruns
      have hstep := scanStep_bypass acc cur cz
      rw [if_neg (by omega : ¬(cz + 1 = 32))] at hstep
      have h1 : runScan [false] ⟨acc, cur, 0, cz⟩ =
          (⟨acc ++ [none], cur, 0, cz + 1⟩, false) := by
        rw [runScan_cons_go _ _ _ _ hstep]
        rfl
      obtain ⟨c, hc, hrun⟩ := ih (acc ++ [none]) cur (cz + 1)
        (fun x hx => hv x (List.mem_cons_of_mem _ hx)) hruns.2 hcur hruns.1
      refine ⟨c, hc, ?_⟩
      simp only [List.map_cons, List.flatten_cons, deviceBits]
      rw [runScan_append_go _ _ _ _ h1, hrun]
      simp [deviceMark, trailingBypass, List.append_assoc]

theorem scanChain_lens (chain : List JtagDevice)
    (hv : ∀ d ∈ chain, validDevice d = true)
    (hruns : bypassRunsOk chain 0 = true) :
    (scanChain chain false).length = chain.length + (32 - trailingBypass chain 0) ∧
    (scanChain chain true).length = chain.length := by
  obtain ⟨c, hc, hrun⟩ := runScan_sections chain [] 0 0 hv hruns (by decide) (by decide)
  have htb := trailingBypass_lt chain 0 hruns (by decide)
  constructor
  · rw [scanChain, chainStream, initScan, runScan_append_go _ _ _ _ hrun]
    rw [runScan_zeros 32 _ c (trailingBypass chain 0) htb (by omega)]
    simp
  · rw [scanChain, chainStream, initScan, runScan_append_go _ _ _ _ hrun]
    rw [runScan_ones _ c (trailingBypass chain 0) hc]
    simp

/-- C9 (counterexample): on a chain consisting of a single bypass device
with the correct pinout, the TDI-low scan returns 32 entries and the
TDI-high scan returns 1, so the detector's identity
`len(scan(false)) - len(scan(true)) == 32` fails (the difference is 31)
even though the pin assignment is correct. -/
theorem jtag_detect_identity_counterexample :
    (scanChain [JtagDevice.bypass] false).length = 32 ∧
    (scanChain [JtagDevice.bypass] true).length = 1 ∧
    (scanChain [JtagDevice.bypass] false).length -
        (scanChain [JtagDevice.bypass] true).length = 31 := by
  refine ⟨by decide, by decide, by decide⟩

/-- C9 (amended): for a correctly-wired chain of valid IDCODE devices and
bypass devices in which every consecutive bypass run is shorter than 32,
the scan-length difference equals `32 - (length of the TDI-adjacent
bypass run)`; in particular the detector's test
`len(scan(false)) - len(scan(true)) == 32` holds iff the device nearest
TDI is not in bypass.  The detector reports exactly the candidates whose
two scans satisfy this identity. -/
theorem jtag_detect_identity (chain : List JtagDevice)
    (hv : ∀ d ∈ chain, validDevice d = true)
    (hruns : bypassRunsOk chain 0 = true) :
    (scanChain chain false).length - (scanChain chain true).length =
      32 - trailingBypass chain 0 ∧
    ((scanChain chain false).length - (scanChain chain true).length = 32 ↔
      trailingBypass chain 0 = 0) := by
  obtain ⟨h0, h1⟩ := scanChain_lens chain hv hruns
  have htb := trailingBypass_lt chain 0 hruns (by decide)
  rw [h0, h1]
  omega

/-- Witness for C9's amended claim: a bypass device followed (on the TDI
side) by an IDCODE device satisfies the identity with difference 32. -/
theorem jtag_detect_identity_witness :
    (scanChain [JtagDevice.bypass, JtagDevice.idcode 0x3BA00477] false).length -
        (scanChain [JtagDevice.bypass, JtagDevice.idcode 0x3BA00477] true).length =
      32 - trailingBypass [JtagDevice.bypass, JtagDevice.idcode 0x3BA00477] 0 ∧
    trailingBypass [JtagDevice.bypass, JtagDevice.idcode 0x3BA00477] 0 = 0 :=
  ⟨(jtag_detect_identity [JtagDevice.bypass, JtagDevice.idcode 0x3BA00477]
      (by decide) (by decide)).1, by decide⟩

/-- `NoAcknowledgeSource`: which phase the slave NACKed. -/
inductive NoAckSource where
  | Address
  | Data
  deriving DecidableEq

/-- One `embedded-hal` I2C operation (read buffers by their length). -/
inductive I2cOperation where
  | read (len : Nat)
  | write (bytes : List Nat)

/-- The GPIO state `I2cCmdBuilder` reads from the locked controller, plus
the configured direction pin and start/stop repeat count. -/
structure I2cConfig where
  lowerValue : Nat
  lowerDirection : Nat
  upperValue : Nat
  upperDirection : Nat
  direction_pin : Option Pin
  start_stop_cmds : Nat

/-- `I2cCmdBuilder::i2c_out` (SCL = bit 0, SDA = bit 1): drive the bus
with both lines as outputs, raising the direction pin when present. -/
def i2c_out (cfg : I2cConfig) (scl sda : Bool) : List MpsseOp :=
  let sclv : Nat := if scl then 1 else 0
  let sdav : Nat := if sda then 2 else 0
  match cfg.direction_pin with
  | some (Pin.Lower idx) =>
    [MpsseOp.setGpioLower (cfg.lowerValue ||| (1 <<< idx) ||| sclv ||| sdav)
      (cfg.lowerDirection ||| 1 ||| 2)]
  | some (Pin.Upper idx) =>
    [MpsseOp.setGpioLower (cfg.lowerValue ||| sclv ||| sdav)
      (cfg.lowerDirection ||| 1 ||| 2),
     MpsseOp.setGpioUpper (cfg.upperValue ||| (1 <<< idx)) cfg.upperDirection]
  | none =>
    [MpsseOp.setGpioLower (cfg.lowerValue ||| sclv ||| sdav)
      (cfg.lowerDirection ||| 1 ||| 2)]

/-- `I2cCmdBuilder::i2c_in`: release SDA (input), keep SCL an output. -/
def i2c_in (cfg : I2cConfig) : List MpsseOp :=
  (match cfg.direction_pin with
   | some (Pin.Upper _) => [MpsseOp.setGpioUpper cfg.upperValue cfg.upperDirection]
   | _ => []) ++
  [MpsseOp.setGpioLower cfg.lowerValue (cfg.lowerDirection ||| 1)]

/-- `I2cCmdBuilder::start`. -/
def i2cStartCmds (cfg : I2cConfig) : List MpsseOp :=
  (List.replicate cfg.start_stop_cmds (i2c_out cfg true true)).flatten ++
  (List.replicate cfg.start_stop_cmds (i2c_out cfg true false)).flatten ++
  (List.replicate cfg.start_stop_cmds (i2c_out cfg false false)).flatten

/-- `I2cCmdBuilder::restart`: release SDA low-high then a start. -/
def i2cRestartCmds (cfg : I2cConfig) : List MpsseOp :=
  (List.replicate cfg.start_stop_cmds (i2c_out cfg false true)).flatten ++
  i2cStartCmds cfg

/-- `I2cCmdBuilder::end`: the STOP condition. -/
def i2cEndCmds (cfg : I2cConfig) : List MpsseOp :=
  (List.replicate cfg.start_stop_cmds (i2c_out cfg false false)).flatten ++
  (List.replicate cfg.start_stop_cmds (i2c_out cfg true false)).flatten ++
  (List.replicate cfg.start_stop_cmds (i2c_out cfg true true)).flatten

/-- `I2cCmdBuilder::i2c_addr`: 8 address bits out (address shifted left,
OR 1 for a read), then release SDA and clock the slave's ACK bit in. -/
def i2cAddrCmds (cfg : I2cConfig) (addr : Nat) (is_read : Bool) : List MpsseOp :=
  let a : Nat := if is_read then (addr <<< 1) ||| 1 else addr <<< 1
  [MpsseOp.shiftBitsOut false false a 8] ++
  i2c_in cfg ++ [MpsseOp.shiftBitsIn false false 1]

/-- `I2cCmdBuilder::i2c_read`: 8 data bits in, then the master ACK bit
out (`0` = MAK, `0xff` = NMAK). -/
def i2cReadByteCmds (cfg : I2cConfig) (m_ack : Bool) : List MpsseOp :=
  i2c_in cfg ++ [MpsseOp.shiftBitsIn false false 8] ++
  i2c_out cfg false false ++
  [MpsseOp.shiftBitsOut false false (if m_ack then 0 else 0xff) 1]

/-- `I2cCmdBuilder::i2c_write`: 8 data bits out, then the slave ACK in. -/
def i2cWriteByteCmds (cfg : I2cConfig) (value : Nat) : List MpsseOp :=
  i2c_out cfg false false ++ [MpsseOp.shiftBitsOut false false value 8] ++
  i2c_in cfg ++ [MpsseOp.shiftBitsIn false false 1]

/-- The read-op body: one `i2c_read` per byte, MAK on all but the last. -/
def readCmds (cfg : I2cConfig) : Nat → List MpsseOp
  | 0 => []
  | len + 1 =>
    if len = 0 then i2cReadByteCmds cfg false
    else i2cReadByteCmds cfg true ++ readCmds cfg len

/-- The number of response bytes a command list makes the device emit
(each 1-8-bit `shift_bits_in` returns one byte). -/
def cmdReads (ops : List MpsseOp) : Nat := (ops.map specResponseLen).sum

/-- The ACK/data query classes a transaction makes, in wire order. -/
inductive QKind where
  | addrAck
  | dataAckMid
  | dataAckFinal
  | readData
  deriving DecidableEq

/-- The query sequence of one write body: a checked ACK per byte except
the last, whose NACK is tolerated. -/
def writeKinds : List Nat → List QKind
  | [] => []
  | _ :: rest =>
    (if rest = [] then QKind.dataAckFinal else QKind.dataAckMid) :: writeKinds rest

/-- The full query sequence of a transaction, threading the
`op_idx == 0` flag and `prev_op_was_a_read` exactly as both transaction
modes do. -/
def transKinds : List I2cOperation → Bool → Bool → List QKind
  | [], _, _ => []
  | I2cOperation.read len :: rest, first, prevRead =>
    (if first || !prevRead then [QKind.addrAck] else []) ++
    List.replicate len QKind.readData ++ transKinds rest false true
  | I2cOperation.write bytes :: rest, first, prevRead =>
    (if first || prevRead then [QKind.addrAck] else []) ++
    writeKinds bytes ++ transKinds rest false false

/-- Whether a response byte fails a query: only a checked ACK (address,
or mid-write data) with LSB 1 (`SLAVE_NOT_ACK`) fails. -/
def failsQ (q : QKind) (byte : Nat) : Bool :=
  match q with
  | QKind.addrAck => decide (byte &&& 1 = 1)
  | QKind.dataAckMid => decide (byte &&& 1 = 1)
  | QKind.dataAckFinal => false
  | QKind.readData => false

/-- The error produced by the first failing query of the sequence, if
any: `Address` for an address-phase NACK, `Data` for a mid-write NACK. -/
def firstFailErr (oracle : Nat → Nat) : List QKind → Nat → Option NoAckSource
  | [], _ => none
  | q :: qs, k =>
    if failsQ q (oracle k) then
      some (match q with
        | QKind.addrAck => NoAckSource.Address
        | _ => NoAckSource.Data)
    else firstFailErr oracle qs (k + 1)

/-- One write body in per-byte mode: one exchange per byte, a NACK on
any byte but the last aborts with STOP + `NoAck(Data)`. Returns the
result, the emitted command stream, and the advanced oracle counter. -/
def writeBytesGo (cfg : I2cConfig) (oracle : Nat → Nat) :
    List Nat → Nat → Except NoAckSource Unit × List MpsseOp × Nat
  | [], k => (Except.ok (), [], k)
  | byte :: rest, k =>
    let c := i2cWriteByteCmds cfg byte
    if oracle k &&& 1 = 1 ∧ rest ≠ [] then
      (Except.error NoAckSource.Data, c ++ i2cEndCmds cfg, k + 1)
    else
      let r := writeBytesGo cfg oracle rest (k + 1)
      (r.1, c ++ r.2.1, r.2.2)

/-- The operation loop of the per-byte `transaction` (i2c.rs 138-203):
threads `op_idx == 0` as `first`, `prev_op_was_a_read`, and the oracle
counter; on a NACK it emits `end` and aborts. -/
def perByteGo (cfg : I2cConfig) (address : Nat) (oracle : Nat → Nat) :
    List I2cOperation → Bool → Bool → Nat →
    Except NoAckSource Unit × List MpsseOp × Nat
  | [], _, _, k => (Except.ok (), [], k)
  | I2cOperation.read len :: rest, first, prevRead, k =>
    if first || !prevRead then
      let addrCmd := (if first then [] else i2cRestartCmds cfg) ++
        i2cAddrCmds cfg address true
      if oracle k &&& 1 = 1 then
        (Except.error NoAckSource.Address, addrCmd ++ i2cEndCmds cfg, k + 1)
      else
        let r := perByteGo cfg address oracle rest false true (k + 1 + len)
        (r.1, addrCmd ++ readCmds cfg len ++ r.2.1, r.2.2)
    else
      let r := perByteGo cfg address oracle rest false true (k + len)
      (r.1, readCmds cfg len ++ r.2.1, r.2.2)
  | I2cOperation.write bytes :: rest, first, prevRead, k =>
    if first || prevRead then
      let addrCmd := (if first then [] else i2cRestartCmds cfg) ++
        i2cAddrCmds cfg address false
      if oracle k &&& 1 = 1 then
        (Except.error NoAckSource.Address, addrCmd ++ i2cEndCmds cfg, k + 1)
      else
        let w := writeBytesGo cfg oracle bytes (k + 1)
        match w.1 with
        | Except.error e => (Except.error e, addrCmd ++ w.2.1, w.2.2)
        | Except.ok _ =>
          let r := perByteGo cfg address oracle rest false false w.2.2
          (r.1, addrCmd ++ w.2.1 ++ r.2.1, r.2.2)
    else
      let w := writeBytesGo cfg oracle bytes k
      match w.1 with
      | Except.error e => (Except.error e, w.2.1, w.2.2)
      | Except.ok _ =>
        let r := perByteGo cfg address oracle rest false false w.2.2
        (r.1, w.2.1 ++ r.2.1, r.2.2)

/-- `FtdiI2c::transaction` (per-byte mode): start exchange, operation
loop, and on success a final stop exchange. The oracle supplies the
device's response bytes in wire order. -/
def transactionPerByte (cfg : I2cConfig) (address : Nat)
    (operations : List I2cOperation) (oracle : Nat → Nat) :
    Except NoAckSource Unit × List MpsseOp :=
  let r := perByteGo cfg address oracle operations true false 0
  match r.1 with
  | Except.ok _ => (Except.ok (), i2cStartCmds cfg ++ r.2.1 ++ i2cEndCmds cfg)
  | Except.error e => (Except.error e, i2cStartCmds cfg ++ r.2.1)

/-- The build loop of `transaction_fast` (i2c.rs 226-258): a repeated
start uses `start`, and every operation is appended unconditionally. -/
def fastBuild (cfg : I2cConfig) (address : Nat) :
    List I2cOperation → Bool → Bool → List MpsseOp
  | [], _, _ => []
  | I2cOperation.read len :: rest, first, prevRead =>
    (if first || !prevRead then
      (if first then [] else i2cStartCmds cfg) ++ i2cAddrCmds cfg address true
     else []) ++
    readCmds cfg len ++ fastBuild cfg address rest false true
  | I2cOperation.write bytes :: rest, first, prevRead =>
    (if first || prevRead then
      (if first then [] else i2cStartCmds cfg) ++ i2cAddrCmds cfg address false
     else []) ++
    (bytes.map (i2cWriteByteCmds cfg)).flatten ++
    fastBuild cfg address rest false false

/-- The write-byte scan of the `transaction_fast` response parser: the
ACK of every byte but the last is checked, the index always advances. -/
def fastParseWrite (response : List Nat) :
    List Nat → Nat → Except NoAckSource Nat
  | [], idx => Except.ok idx
  | _ :: rest, idx =>
    if response.getD idx 0 &&& 1 = 1 ∧ rest ≠ [] then
      Except.error NoAckSource.Data
    else fastParseWrite response rest (idx + 1)

/-- The response parser of `transaction_fast` (i2c.rs 264-302),
returning the final `response_idx` on success. -/
def fastParse (response : List Nat) :
    List I2cOperation → Bool → Bool → Nat → Except NoAckSource Nat
  | [], _, _, idx => Except.ok idx
  | I2cOperation.read len :: rest, first, prevRead, idx =>
    if first || !prevRead then
      if response.getD idx 0 &&& 1 = 1 then Except.error NoAckSource.Address
      else fastParse response rest false true (idx + 1 + len)
    else fastParse response rest false true (idx + len)
  | I2cOperation.write bytes :: rest, first, prevRead, idx =>
    if first || prevRead then
      if response.getD idx 0 &&& 1 = 1 then Except.error NoAckSource.Address
      else
        match fastParseWrite response bytes (idx + 1) with
        | Except.error e => Except.error e
        | Except.ok j => fastParse response rest false false j
    else
      match fastParseWrite response bytes idx with
      | Except.error e => Except.error e
      | Except.ok j => fastParse response rest false false j

/-- `FtdiI2c::transaction_fast`: one command stream (start, all
operations, stop), one exchange sized by the builder's `read_len`, then
the parse walk. -/
def transactionFast (cfg : I2cConfig) (address : Nat)
    (operations : List I2cOperation) (oracle : Nat → Nat) :
    Except NoAckSource Unit × List MpsseOp :=
  let c := i2cStartCmds cfg ++ fastBuild cfg address operations true false ++
    i2cEndCmds cfg
  let response := (List.range (cmdReads c)).map oracle
  match fastParse response operations true false 0 with
  | Except.ok _ => (Except.ok (), c)
  | Except.error e => (Except.error e, c)

theorem firstFailErr_append (oracle : Nat → Nat) :
    ∀ (l1 l2 : List QKind) (k : Nat),
      firstFailErr oracle (l1 ++ l2) k =
        match firstFailErr oracle l1 k with
        | some e => some e
        | none => firstFailErr oracle l2 (k + l1.length)
  | [], l2, k => by simp [firstFailErr]
  | q :: qs, l2, k => by
    simp only [List.cons_append, firstFailErr]
    by_cases h : failsQ q (oracle k) = true
    · simp [h]
    · simp only [Bool.not_eq_true] at h
      simp only [h, Bool.false_eq_true, if_false, List.append_eq]
      rw [firstFailErr_append oracle qs l2 (k + 1)]
      simp [Nat.add_comm, Nat.add_assoc, Nat.add_left_comm]

theorem firstFailErr_replicate_readData (oracle : Nat → Nat) :
    ∀ (n k : Nat),
      firstFailErr oracle (List.replicate n QKind.readData) k = none
  | 0, k => by simp [firstFailErr]
  | n + 1, k => by
    simp only [List.replicate_succ, firstFailErr, failsQ, Bool.false_eq_true,
      if_false]
    exact firstFailErr_replicate_readData oracle n (k + 1)

theorem writeKinds_length : ∀ bytes : List Nat,
    (writeKinds bytes).length = bytes.length
  | [] => rfl
  | _ :: rest => by simp [writeKinds, writeKinds_length rest]

theorem cmdReads_append (a b : List MpsseOp) :
    cmdReads (a ++ b) = cmdReads a + cmdReads b := by
  simp [cmdReads]

theorem cmdReads_i2c_out (cfg : I2cConfig) (scl sda : Bool) :
    cmdReads (i2c_out cfg scl sda) = 0 := by
  unfold i2c_out
  cases h : cfg.direction_pin with
  | none => simp [cmdReads, specResponseLen]
  | some p => cases p <;> simp [cmdReads, specResponseLen]

theorem cmdReads_i2c_in (cfg : I2cConfig) :
    cmdReads (i2c_in cfg) = 0 := by
  unfold i2c_in
  cases h : cfg.direction_pin with
  | none => simp [cmdReads, specResponseLen]
  | some p => cases p <;> simp [cmdReads, specResponseLen]

theorem cmdReads_flatten_replicate (l : List MpsseOp) (h : cmdReads l = 0) :
    ∀ n : Nat, cmdReads (List.replicate n l).flatten = 0
  | 0 => rfl
  | n + 1 => by
    simp only [List.replicate_succ, List.flatten_cons, cmdReads_append, h,
      cmdReads_flatten_replicate l h n]

theorem cmdReads_start (cfg : I2cConfig) : cmdReads (i2cStartCmds cfg) = 0 := by
  unfold i2cStartCmds
  simp [cmdReads_append, cmdReads_flatten_replicate _ (cmdReads_i2c_out cfg _ _)]

theorem cmdReads_restart (cfg : I2cConfig) :
    cmdReads (i2cRestartCmds cfg) = 0 := by
  unfold i2cRestartCmds
  simp [cmdReads_append, cmdReads_flatten_replicate _ (cmdReads_i2c_out cfg _ _),
    cmdReads_start]

theorem cmdReads_end (cfg : I2cConfig) : cmdReads (i2cEndCmds cfg) = 0 := by
  unfold i2cEndCmds
  simp [cmdReads_append, cmdReads_flatten_replicate _ (cmdReads_i2c_out cfg _ _)]

theorem cmdReads_addr (cfg : I2cConfig) (addr : Nat) (is_read : Bool) :
    cmdReads (i2cAddrCmds cfg addr is_read) = 1 := by
  unfold i2cAddrCmds
  simp only [cmdReads_append, cmdReads_i2c_in]
  simp [cmdReads, specResponseLen]

theorem cmdReads_readByte (cfg : I2cConfig) (m_ack : Bool) :
    cmdReads (i2cReadByteCmds cfg m_ack) = 1 := by
  unfold i2cReadByteCmds
  simp only [cmdReads_append, cmdReads_i2c_in, cmdReads_i2c_out]
  simp [cmdReads, specResponseLen]

theorem cmdReads_writeByte (cfg : I2cConfig) (value : Nat) :
    cmdReads (i2cWriteByteCmds cfg value) = 1 := by
  unfold i2cWriteByteCmds
  simp only [cmdReads_append, cmdReads_i2c_in, cmdReads_i2c_out]
  simp [cmdReads, specResponseLen]

theorem cmdReads_readCmds (cfg : I2cConfig) :
    ∀ len : Nat, cmdReads (readCmds cfg len) = len
  | 0 => rfl
  | len + 1 => by
    unfold readCmds
    by_cases h : len = 0
    · rw [if_pos h, cmdReads_readByte, h]
    · rw [if_neg h, cmdReads_append, cmdReads_readByte, cmdReads_readCmds cfg len]
      omega

theorem cmdReads_writeBytes (cfg : I2cConfig) :
    ∀ bytes : List Nat,
      cmdReads (bytes.map (i2cWriteByteCmds cfg)).flatten = bytes.length
  | [] => rfl
  | b :: rest => by
    simp only [List.map_cons, List.flatten_cons, cmdReads_append,
      cmdReads_writeByte, cmdReads_writeBytes cfg rest, List.length_cons]
    omega

theorem cmdReads_fastBuild (cfg : I2cConfig) (address : Nat) :
    ∀ (ops : List I2cOperation) (first prevRead : Bool),
      cmdReads (fastBuild cfg address ops first prevRead) =
        (transKinds ops first prevRead).length
  | [], _, _ => rfl
  | I2cOperation.read len :: rest, first, prevRead => by
    unfold fastBuild transKinds
    cases first <;> cases prevRead <;>
      (simp [cmdReads_append, cmdReads_start, cmdReads_addr, cmdReads_readCmds,
        cmdReads_fastBuild cfg address rest false true, Nat.add_comm,
        Nat.add_left_comm]
       try omega)
  | I2cOperation.write bytes :: rest, first, prevRead => by
    unfold fastBuild transKinds
    cases first <;> cases prevRead <;>
      (simp [cmdReads_append, cmdReads_start, cmdReads_addr, cmdReads_writeBytes,
        writeKinds_length, cmdReads_fastBuild cfg address rest false false,
        Nat.add_comm, Nat.add_left_comm]
       try omega)

theorem firstFailErr_cons (oracle : Nat → Nat) (q : QKind) (qs : List QKind)
    (k : Nat) :
    firstFailErr oracle (q :: qs) k =
      if failsQ q (oracle k) then
        some (match q with
          | QKind.addrAck => NoAckSource.Address
          | _ => NoAckSource.Data)
      else firstFailErr oracle qs (k + 1) := rfl

theorem writeBytesGo_cons (cfg : I2cConfig) (oracle : Nat → Nat) (byte : Nat)
    (rest : List Nat) (k : Nat) :
    writeBytesGo cfg oracle (byte :: rest) k =
      if oracle k &&& 1 = 1 ∧ rest ≠ [] then
        (Except.error NoAckSource.Data,
         i2cWriteByteCmds cfg byte ++ i2cEndCmds cfg, k + 1)
      else
        ((writeBytesGo cfg oracle rest (k + 1)).1,
         i2cWriteByteCmds cfg byte ++ (writeBytesGo cfg oracle rest (k + 1)).2.1,
         (writeBytesGo cfg oracle rest (k + 1)).2.2) := rfl

theorem writeBytesGo_spec (cfg : I2cConfig) (oracle : Nat → Nat) :
    ∀ (bytes : List Nat) (k : Nat),
      (firstFailErr oracle (writeKinds bytes) k = none →
        (writeBytesGo cfg oracle bytes k).1 = Except.ok () ∧
        (writeBytesGo cfg oracle bytes k).2.2 = k + bytes.length) ∧
      (∀ e, firstFailErr oracle (writeKinds bytes) k = some e →
        (writeBytesGo cfg oracle bytes k).1 = Except.error e ∧
        ∃ pre, (writeBytesGo cfg oracle bytes k).2.1 = pre ++ i2cEndCmds cfg)
  | [], k => by
    refine ⟨fun _ => ⟨rfl, rfl⟩, fun e he => ?_⟩
    simp [writeKinds, firstFailErr] at he
  | byte :: rest, k => by
    by_cases hr : rest = []
    · subst hr
      simp [writeBytesGo, writeKinds, firstFailErr, failsQ]
    · have hq : writeKinds (byte :: rest) = QKind.dataAckMid :: writeKinds rest := by
        simp [writeKinds, hr]
      by_cases hk : oracle k &&& 1 = 1
      · have hf : firstFailErr oracle (writeKinds (byte :: rest)) k =
            some NoAckSource.Data := by
          rw [hq, firstFailErr_cons]
          simp only [failsQ, decide_eq_true_eq]
          rw [if_pos hk]
        have hw : writeBytesGo cfg oracle (byte :: rest) k =
            (Except.error NoAckSource.Data,
             i2cWriteByteCmds cfg byte ++ i2cEndCmds cfg, k + 1) := by
          rw [writeBytesGo_cons, if_pos ⟨hk, hr⟩]
        refine ⟨fun hn => ?_, fun e he => ?_⟩
        · rw [hf] at hn
          exact absurd hn (by simp)
        · rw [hf] at he
          injection he with he2
          subst he2
          rw [hw]
          exact ⟨rfl, ⟨i2cWriteByteCmds cfg byte, rfl⟩⟩
      · have hf : firstFailErr oracle (writeKinds (byte :: rest)) k =
            firstFailErr oracle (writeKinds rest) (k + 1) := by
          rw [hq, firstFailErr_cons]
          simp only [failsQ, decide_eq_true_eq]
          rw [if_neg hk]
        have hw : writeBytesGo cfg oracle (byte :: rest) k =
            ((writeBytesGo cfg oracle rest (k + 1)).1,
             i2cWriteByteCmds cfg byte ++ (writeBytesGo cfg oracle rest (k + 1)).2.1,
             (writeBytesGo cfg oracle rest (k + 1)).2.2) := by
          rw [writeBytesGo_cons, if_neg (by intro hc; exact hk hc.1)]
        have ih := writeBytesGo_spec cfg oracle rest (k + 1)
        refine ⟨fun hn => ?_, fun e he => ?_⟩
        · rw [hf] at hn
          obtain ⟨h1, h2⟩ := ih.1 hn
          rw [hw]
          refine ⟨h1, ?_⟩
          simp only [h2, List.length_cons]
          omega
        · rw [hf] at he
          obtain ⟨h1, pre, h2⟩ := ih.2 e he
          rw [hw]
          exact ⟨h1, ⟨i2cWriteByteCmds cfg byte ++ pre, by rw [h2, List.append_assoc]⟩⟩

theorem transKinds_read (len : Nat) (rest : List I2cOperation)
    (first prevRead : Bool) :
    transKinds (I2cOperation.read len :: rest) first prevRead =
      (if first || !prevRead then [QKind.addrAck] else []) ++
      List.replicate len QKind.readData ++ transKinds rest false true := rfl

theorem transKinds_write (bytes : List Nat) (rest : List I2cOperation)
    (first prevRead : Bool) :
    transKinds (I2cOperation.write bytes :: rest) first prevRead =
      (if first || prevRead then [QKind.addrAck] else []) ++
      writeKinds bytes ++ transKinds rest false false := rfl

theorem perByteGo_read_eq (cfg : I2cConfig) (address : Nat) (oracle : Nat → Nat)
    (len : Nat) (rest : List I2cOperation) (first prevRead : Bool) (k : Nat) :
    perByteGo cfg address oracle (I2cOperation.read len :: rest) first prevRead k =
      if first || !prevRead then
        if oracle k &&& 1 = 1 then
          (Except.error NoAckSource.Address,
           ((if first then [] else i2cRestartCmds cfg) ++
             i2cAddrCmds cfg address true) ++ i2cEndCmds cfg, k + 1)
        else
          ((perByteGo cfg address oracle rest false true (k + 1 + len)).1,
           ((if first then [] else i2cRestartCmds cfg) ++
             i2cAddrCmds cfg address true) ++ readCmds cfg len ++
             (perByteGo cfg address oracle rest false true (k + 1 + len)).2.1,
           (perByteGo cfg address oracle rest false true (k + 1 + len)).2.2)
      else
        ((perByteGo cfg address oracle rest false true (k + len)).1,
         readCmds cfg len ++
           (perByteGo cfg address oracle rest false true (k + len)).2.1,
         (perByteGo cfg address oracle rest false true (k + len)).2.2) := rfl

theorem perByteGo_write_eq (cfg : I2cConfig) (address : Nat) (oracle : Nat → Nat)
    (bytes : List Nat) (rest : List I2cOperation) (first prevRead : Bool)
    (k : Nat) :
    perByteGo cfg address oracle (I2cOperation.write bytes :: rest) first prevRead k =
      if first || prevRead then
        if oracle k &&& 1 = 1 then
          (Except.error NoAckSource.Address,
           ((if first then [] else i2cRestartCmds cfg) ++
             i2cAddrCmds cfg address false) ++ i2cEndCmds cfg, k + 1)
        else
          match (writeBytesGo cfg oracle bytes (k + 1)).1 with
          | Except.error e =>
            (Except.error e,
             ((if first then [] else i2cRestartCmds cfg) ++
               i2cAddrCmds cfg address false) ++
               (writeBytesGo cfg oracle bytes (k + 1)).2.1,
             (writeBytesGo cfg oracle bytes (k + 1)).2.2)
          | Except.ok _ =>
            ((perByteGo cfg address oracle rest false false
                (writeBytesGo cfg oracle bytes (k + 1)).2.2).1,
             ((if first then [] else i2cRestartCmds cfg) ++
               i2cAddrCmds cfg address false) ++
               (writeBytesGo cfg oracle bytes (k + 1)).2.1 ++
               (perByteGo cfg address oracle rest false false
                 (writeBytesGo cfg oracle bytes (k + 1)).2.2).2.1,
             (perByteGo cfg address oracle rest false false
               (writeBytesGo cfg oracle bytes (k + 1)).2.2).2.2)
      else
        match (writeBytesGo cfg oracle bytes k).1 with
        | Except.error e =>
          (Except.error e, (writeBytesGo cfg oracle bytes k).2.1,
           (writeBytesGo cfg oracle bytes k).2.2)
        | Except.ok _ =>
          ((perByteGo cfg address oracle rest false false
              (writeBytesGo cfg oracle bytes k).2.2).1,
           (writeBytesGo cfg oracle bytes k).2.1 ++
             (perByteGo cfg address oracle rest false false
               (writeBytesGo cfg oracle bytes k).2.2).2.1,
           (perByteGo cfg address oracle rest false false
             (writeBytesGo cfg oracle bytes k).2.2).2.2) := rfl

theorem perByteGo_spec (cfg : I2cConfig) (address : Nat) (oracle : Nat → Nat) :
    ∀ (ops : List I2cOperation) (first prevRead : Bool) (k : Nat),
      (firstFailErr oracle (transKinds ops first prevRead) k = none →
        (perByteGo cfg address oracle ops first prevRead k).1 = Except.ok () ∧
        (perByteGo cfg address oracle ops first prevRead k).2.2 =
          k + (transKinds ops first prevRead).length) ∧
      (∀ e, firstFailErr oracle (transKinds ops first prevRead) k = some e →
        (perByteGo cfg address oracle ops first prevRead k).1 = Except.error e ∧
        ∃ pre, (perByteGo cfg address oracle ops first prevRead k).2.1 =
          pre ++ i2cEndCmds cfg)
  | [], first, prevRead, k => by
    refine ⟨fun _ => ⟨rfl, rfl⟩, fun e he => ?_⟩
    simp [transKinds, firstFailErr] at he
  | I2cOperation.read len :: rest, first, prevRead, k => by
    have ih1 := perByteGo_spec cfg address oracle rest false true (k + 1 + len)
    have ih2 := perByteGo_spec cfg address oracle rest false true (k + len)
    by_cases ha : (first || !prevRead) = true
    · have hkinds : transKinds (I2cOperation.read len :: rest) first prevRead =
          QKind.addrAck :: (List.replicate len QKind.readData ++
            transKinds rest false true) := by
        rw [transKinds_read, if_pos ha]
        simp
      by_cases hk : oracle k &&& 1 = 1
      · have hf : firstFailErr oracle
            (transKinds (I2cOperation.read len :: rest) first prevRead) k =
            some NoAckSource.Address := by
          rw [hkinds, firstFailErr_cons]
          simp only [failsQ, decide_eq_true_eq]
          rw [if_pos hk]
        have hw := perByteGo_read_eq cfg address oracle len rest first prevRead k
        rw [if_pos ha, if_pos hk] at hw
        refine ⟨fun hn => ?_, fun e he => ?_⟩
        · rw [hf] at hn
          exact absurd hn (by simp)
        · rw [hf] at he
          injection he with he2
          subst he2
          rw [hw]
          exact ⟨rfl, ⟨_, rfl⟩⟩
      · have hf : firstFailErr oracle
            (transKinds (I2cOperation.read len :: rest) first prevRead) k =
            firstFailErr oracle (transKinds rest false true) (k + 1 + len) := by
          rw [hkinds, firstFailErr_cons]
          simp only [failsQ, decide_eq_true_eq]
          rw [if_neg hk, firstFailErr_append, firstFailErr_replicate_readData]
          simp [List.length_replicate]
        have hw := perByteGo_read_eq cfg address oracle len rest first prevRead k
        rw [if_pos ha, if_neg hk] at hw
        refine ⟨fun hn => ?_, fun e he => ?_⟩
        · rw [hf] at hn
          obtain ⟨h1, h2⟩ := ih1.1 hn
          rw [hw]
          refine ⟨h1, ?_⟩
          dsimp only
          rw [h2, hkinds]
          simp only [List.length_cons, List.length_append, List.length_replicate]
          omega
        · rw [hf] at he
          obtain ⟨h1, pre, h2⟩ := ih1.2 e he
          rw [hw]
          refine ⟨h1, ⟨((if first then [] else i2cRestartCmds cfg) ++
            i2cAddrCmds cfg address true) ++ readCmds cfg len ++ pre, ?_⟩⟩
          dsimp only
          rw [h2]
          simp [List.append_assoc]
    · have hkinds : transKinds (I2cOperation.read len :: rest) first prevRead =
          List.replicate len QKind.readData ++ transKinds rest false true := by
        rw [transKinds_read, if_neg ha]
        simp
      have hf : firstFailErr oracle
          (transKinds (I2cOperation.read len :: rest) first prevRead) k =
          firstFailErr oracle (transKinds rest false true) (k + len) := by
        rw [hkinds, firstFailErr_append, firstFailErr_replicate_readData]
        simp [List.length_replicate]
      have hw := perByteGo_read_eq cfg address oracle len rest first prevRead k
      rw [if_neg ha] at hw
      refine ⟨fun hn => ?_, fun e he => ?_⟩
      · rw [hf] at hn
        obtain ⟨h1, h2⟩ := ih2.1 hn
        rw [hw]
        refine ⟨h1, ?_⟩
        dsimp only
        rw [h2, hkinds]
        simp only [List.length_append, List.length_replicate]
        omega
      · rw [hf] at he
        obtain ⟨h1, pre, h2⟩ := ih2.2 e he
        rw [hw]
        refine ⟨h1, ⟨readCmds cfg len ++ pre, ?_⟩⟩
        dsimp only
        rw [h2]
        simp [List.append_assoc]
  | I2cOperation.write bytes :: rest, first, prevRead, k => by
    by_cases ha : (first || prevRead) = true
    · by_cases hk : oracle k &&& 1 = 1
      · have hkinds : transKinds (I2cOperation.write bytes :: rest) first prevRead =
            QKind.addrAck :: (writeKinds bytes ++ transKinds rest false false) := by
          rw [transKinds_write, if_pos ha]
          simp
        have hf : firstFailErr oracle
            (transKinds (I2cOperation.write bytes :: rest) first prevRead) k =
            some NoAckSource.Address := by
          rw [hkinds, firstFailErr_cons]
          simp only [failsQ, decide_eq_true_eq]
          rw [if_pos hk]
        have hw := perByteGo_write_eq cfg address oracle bytes rest first prevRead k
        rw [if_pos ha, if_pos hk] at hw
        refine ⟨fun hn => ?_, fun e he => ?_⟩
        · rw [hf] at hn
          exact absurd hn (by simp)
        · rw [hf] at he
          injection he with he2
          subst he2
          rw [hw]
          exact ⟨rfl, ⟨_, rfl⟩⟩
      · have hwspec := writeBytesGo_spec cfg oracle bytes (k + 1)
        have hkinds : transKinds (I2cOperation.write bytes :: rest) first prevRead =
            QKind.addrAck :: (writeKinds bytes ++ transKinds rest false false) := by
          rw [transKinds_write, if_pos ha]
          simp
        have hf0 : firstFailErr oracle
            (transKinds (I2cOperation.write bytes :: rest) first prevRead) k =
            match firstFailErr oracle (writeKinds bytes) (k + 1) with
            | some e => some e
            | none => firstFailErr oracle (transKinds rest false false)
                (k + 1 + bytes.length) := by
          rw [hkinds, firstFailErr_cons]
          simp only [failsQ, decide_eq_true_eq]
          rw [if_neg hk, firstFailErr_append, writeKinds_length]
        have hw := perByteGo_write_eq cfg address oracle bytes rest first prevRead k
        rw [if_pos ha, if_neg hk] at hw
        cases hwb : firstFailErr oracle (writeKinds bytes) (k + 1) with
        | some e0 =>
          obtain ⟨h1, pre, h2⟩ := hwspec.2 e0 hwb
          have hf : firstFailErr oracle
              (transKinds (I2cOperation.write bytes :: rest) first prevRead) k =
              some e0 := by
            rw [hf0, hwb]
          rw [h1] at hw
          dsimp only at hw
          refine ⟨fun hn => ?_, fun e he => ?_⟩
          · rw [hf] at hn
            exact absurd hn (by simp)
          · rw [hf] at he
            injection he with he2
            subst he2
            rw [hw]
            refine ⟨rfl, ⟨((if first then [] else i2cRestartCmds cfg) ++
              i2cAddrCmds cfg address false) ++ pre, ?_⟩⟩
            dsimp only
            rw [h2]
            simp [List.append_assoc]
        | none =>
          obtain ⟨h1, h2⟩ := hwspec.1 hwb
          have ih := perByteGo_spec cfg address oracle rest false false
            (k + 1 + bytes.length)
          have hf : firstFailErr oracle
              (transKinds (I2cOperation.write bytes :: rest) first prevRead) k =
              firstFailErr oracle (transKinds rest false false)
                (k + 1 + bytes.length) := by
            rw [hf0, hwb]
          rw [h1] at hw
          dsimp only at hw
          rw [h2] at hw
          refine ⟨fun hn => ?_, fun e he => ?_⟩
          · rw [hf] at hn
            obtain ⟨g1, g2⟩ := ih.1 hn
            rw [hw]
            refine ⟨g1, ?_⟩
            dsimp only
            rw [g2, hkinds]
            simp only [List.length_cons, List.length_append, writeKinds_length]
            omega
          · rw [hf] at he
            obtain ⟨g1, pre, g2⟩ := ih.2 e he
            rw [hw]
            refine ⟨g1, ⟨((if first then [] else i2cRestartCmds cfg) ++
              i2cAddrCmds cfg address false) ++
              (writeBytesGo cfg oracle bytes (k + 1)).2.1 ++ pre, ?_⟩⟩
            dsimp only
            rw [g2]
            simp [List.append_assoc]
    · have hwspec := writeBytesGo_spec cfg oracle bytes k
      have hkinds : transKinds (I2cOperation.write bytes :: rest) first prevRead =
          writeKinds bytes ++ transKinds rest false false := by
        rw [transKinds_write, if_neg ha]
        simp
      have hf0 : firstFailErr oracle
          (transKinds (I2cOperation.write bytes :: rest) first prevRead) k =
          match firstFailErr oracle (writeKinds bytes) k with
          | some e => some e
          | none => firstFailErr oracle (transKinds rest false false)
              (k + bytes.length) := by
        rw [hkinds, firstFailErr_append, writeKinds_length]
      have hw := perByteGo_write_eq cfg address oracle bytes rest first prevRead k
      rw [if_neg ha] at hw
      cases hwb : firstFailErr oracle (writeKinds bytes) k with
      | some e0 =>
        obtain ⟨h1, pre, h2⟩ := hwspec.2 e0 hwb
        have hf : firstFailErr oracle
            (transKinds (I2cOperation.write bytes :: rest) first prevRead) k =
            some e0 := by
          rw [hf0, hwb]
        rw [h1] at hw
        dsimp only at hw
        refine ⟨fun hn => ?_, fun e he => ?_⟩
        · rw [hf] at hn
          exact absurd hn (by simp)
        · rw [hf] at he
          injection he with he2
          subst he2
          rw [hw]
          exact ⟨rfl, ⟨pre, h2⟩⟩
      | none =>
        obtain ⟨h1, h2⟩ := hwspec.1 hwb
        have ih := perByteGo_spec cfg address oracle rest false false
          (k + bytes.length)
        have hf : firstFailErr oracle
            (transKinds (I2cOperation.write bytes :: rest) first prevRead) k =
            firstFailErr oracle (transKinds rest false false) (k + bytes.length) := by
          rw [hf0, hwb]
        rw [h1] at hw
        dsimp only at hw
        rw [h2] at hw
        refine ⟨fun hn => ?_, fun e he => ?_⟩
        · rw [hf] at hn
          obtain ⟨g1, g2⟩ := ih.1 hn
          rw [hw]
          refine ⟨g1, ?_⟩
          dsimp only
          rw [g2, hkinds]
          simp only [List.length_append, writeKinds_length]
          omega
        · rw [hf] at he
          obtain ⟨g1, pre, g2⟩ := ih.2 e he
          rw [hw]
          refine ⟨g1, ⟨(writeBytesGo cfg oracle bytes k).2.1 ++ pre, ?_⟩⟩
          dsimp only
          rw [g2]
          simp [List.append_assoc]

theorem fastParseWrite_cons (response : List Nat) (b : Nat) (rest : List Nat)
    (idx : Nat) :
    fastParseWrite response (b :: rest) idx =
      if response.getD idx 0 &&& 1 = 1 ∧ rest ≠ [] then
        Except.error NoAckSource.Data
      else fastParseWrite response rest (idx + 1) := rfl

theorem fastParseWrite_spec (response : List Nat) (oracle : Nat → Nat) :
    ∀ (bytes : List Nat) (idx : Nat),
      (∀ i, i < idx + bytes.length → response.getD i 0 = oracle i) →
      fastParseWrite response bytes idx =
        (match firstFailErr oracle (writeKinds bytes) idx with
         | none => Except.ok (idx + bytes.length)
         | some e => Except.error e)
  | [], idx, _ => by simp [fastParseWrite, writeKinds, firstFailErr]
  | b :: rest, idx, hresp => by
    have hb : response.getD idx 0 = oracle idx := by
      refine hresp idx ?_
      simp only [List.length_cons]
      omega
    by_cases hr : rest = []
    · subst hr
      simp [fastParseWrite, writeKinds, firstFailErr, failsQ]
    · have hq : writeKinds (b :: rest) = QKind.dataAckMid :: writeKinds rest := by
        simp [writeKinds, hr]
      by_cases hk : oracle idx &&& 1 = 1
      · have hl : fastParseWrite response (b :: rest) idx =
            Except.error NoAckSource.Data := by
          rw [fastParseWrite_cons, if_pos ⟨by rw [hb]; exact hk, hr⟩]
        rw [hl, hq, firstFailErr_cons]
        simp only [failsQ, decide_eq_true_eq]
        rw [if_pos hk]
      · have hl : fastParseWrite response (b :: rest) idx =
            fastParseWrite response rest (idx + 1) := by
          rw [fastParseWrite_cons, if_neg]
          intro hc
          rw [hb] at hc
          exact hk hc.1
        rw [hl, fastParseWrite_spec response oracle rest (idx + 1)
          (fun i hi => hresp i (by simp only [List.length_cons]; omega))]
        rw [hq, firstFailErr_cons]
        simp only [failsQ, decide_eq_true_eq]
        rw [if_neg hk]
        cases firstFailErr oracle (writeKinds rest) (idx + 1) with
        | none =>
          simp only [List.length_cons]
          rw [Nat.add_assoc, Nat.add_comm 1 rest.length]
        | some e => rfl

theorem fastParse_read_eq (response : List Nat) (len : Nat)
    (rest : List I2cOperation) (first prevRead : Bool) (idx : Nat) :
    fastParse response (I2cOperation.read len :: rest) first prevRead idx =
      if first || !prevRead then
        if response.getD idx 0 &&& 1 = 1 then Except.error NoAckSource.Address
        else fastParse response rest false true (idx + 1 + len)
      else fastParse response rest false true (idx + len) := rfl

theorem fastParse_write_eq (response : List Nat) (bytes : List Nat)
    (rest : List I2cOperation) (first prevRead : Bool) (idx : Nat) :
    fastParse response (I2cOperation.write bytes :: rest) first prevRead idx =
      if first || prevRead then
        if response.getD idx 0 &&& 1 = 1 then Except.error NoAckSource.Address
        else
          match fastParseWrite response bytes (idx + 1) with
          | Except.error e => Except.error e
          | Except.ok j => fastParse response rest false false j
      else
        match fastParseWrite response bytes idx with
        | Except.error e => Except.error e
        | Except.ok j => fastParse response rest false false j := rfl

theorem fastParse_spec (response : List Nat) (oracle : Nat → Nat) :
    ∀ (ops : List I2cOperation) (first prevRead : Bool) (idx : Nat),
      (∀ i, i < idx + (transKinds ops first prevRead).length →
        response.getD i 0 = oracle i) →
      fastParse response ops first prevRead idx =
        (match firstFailErr oracle (transKinds ops first prevRead) idx with
         | none => Except.ok (idx + (transKinds ops first prevRead).length)
         | some e => Except.error e)
  | [], first, prevRead, idx, _ => by
    simp [fastParse, transKinds, firstFailErr]
  | I2cOperation.read len :: rest, first, prevRead, idx, hresp => by
    by_cases ha : (first || !prevRead) = true
    · have hkinds : transKinds (I2cOperation.read len :: rest) first prevRead =
          QKind.addrAck :: (List.replicate len QKind.readData ++
            transKinds rest false true) := by
        rw [transKinds_read, if_pos ha]
        simp
      have hb : response.getD idx 0 = oracle idx := by
        refine hresp idx ?_
        rw [hkinds]
        simp only [List.length_cons]
        omega
      by_cases hk : oracle idx &&& 1 = 1
      · have hf : firstFailErr oracle
            (transKinds (I2cOperation.read len :: rest) first prevRead) idx =
            some NoAckSource.Address := by
          rw [hkinds, firstFailErr_cons]
          simp only [failsQ, decide_eq_true_eq]
          rw [if_pos hk]
        rw [fastParse_read_eq, if_pos ha, if_pos (by rw [hb]; exact hk), hf]
      · have hf : firstFailErr oracle
            (transKinds (I2cOperation.read len :: rest) first prevRead) idx =
            firstFailErr oracle (transKinds rest false true) (idx + 1 + len) := by
          rw [hkinds, firstFailErr_cons]
          simp only [failsQ, decide_eq_true_eq]
          rw [if_neg hk, firstFailErr_append, firstFailErr_replicate_readData]
          simp [List.length_replicate]
        have hsub := fastParse_spec response oracle rest false true (idx + 1 + len)
          (fun i hi => hresp i (by
            rw [hkinds]
            simp only [List.length_cons, List.length_append, List.length_replicate]
            omega))
        rw [fastParse_read_eq, if_pos ha,
          if_neg (by rw [hb]; exact hk), hsub, hf]
        cases firstFailErr oracle (transKinds rest false true) (idx + 1 + len) with
        | none =>
          rw [hkinds]
          simp only [List.length_cons, List.length_append, List.length_replicate]
          congr 1
          omega
        | some e => rfl
    · have hkinds : transKinds (I2cOperation.read len :: rest) first prevRead =
          List.replicate len QKind.readData ++ transKinds rest false true := by
        rw [transKinds_read, if_neg ha]
        simp
      have hf : firstFailErr oracle
          (transKinds (I2cOperation.read len :: rest) first prevRead) idx =
          firstFailErr oracle (transKinds rest false true) (idx + len) := by
        rw [hkinds, firstFailErr_append, firstFailErr_replicate_readData]
        simp [List.length_replicate]
      have hsub := fastParse_spec response oracle rest false true (idx + len)
        (fun i hi => hresp i (by
          rw [hkinds]
          simp only [List.length_append, List.length_replicate]
          omega))
      rw [fastParse_read_eq, if_neg ha, hsub, hf]
      cases firstFailErr oracle (transKinds rest false true) (idx + len) with
      | none =>
        rw [hkinds]
        simp only [List.length_append, List.length_replicate]
        congr 1
        omega
      | some e => rfl
  | I2cOperation.write bytes :: rest, first, prevRead, idx, hresp => by
    by_cases ha : (first || prevRead) = true
    · have hkinds : transKinds (I2cOperation.write bytes :: rest) first prevRead =
          QKind.addrAck :: (writeKinds bytes ++ transKinds rest false false) := by
        rw [transKinds_write, if_pos ha]
        simp
      have hb : response.getD idx 0 = oracle idx := by
        refine hresp idx ?_
        rw [hkinds]
        simp only [List.length_cons]
        omega
      by_cases hk : oracle idx &&& 1 = 1
      · have hf : firstFailErr oracle
            (transKinds (I2cOperation.write bytes :: rest) first prevRead) idx =
            some NoAckSource.Address := by
          rw [hkinds, firstFailErr_cons]
          simp only [failsQ, decide_eq_true_eq]
          rw [if_pos hk]
        rw [fastParse_write_eq, if_pos ha, if_pos (by rw [hb]; exact hk), hf]
      · have hf0 : firstFailErr oracle
            (transKinds (I2cOperation.write bytes :: rest) first prevRead) idx =
            match firstFailErr oracle (writeKinds bytes) (idx + 1) with
            | some e => some e
            | none => firstFailErr oracle (transKinds rest false false)
                (idx + 1 + bytes.length) := by
          rw [hkinds, firstFailErr_cons]
          simp only [failsQ, decide_eq_true_eq]
          rw [if_neg hk, firstFailErr_append, writeKinds_length]
        have hwp := fastParseWrite_spec response oracle bytes (idx + 1)
          (fun i hi => hresp i (by
            rw [hkinds]
            simp only [List.length_cons, List.length_append, writeKinds_length]
            omega))
        rw [fastParse_write_eq, if_pos ha, if_neg (by rw [hb]; exact hk), hwp]
        cases hwb : firstFailErr oracle (writeKinds bytes) (idx + 1) with
        | some e0 =>
          rw [hf0, hwb]
        | none =>
          have hsub := fastParse_spec response oracle rest false false
            (idx + 1 + bytes.length)
            (fun i hi => hresp i (by
              rw [hkinds]
              simp only [List.length_cons, List.length_append, writeKinds_length]
              omega))
          rw [hf0, hwb]
          dsimp only
          rw [hsub]
          cases firstFailErr oracle (transKinds rest false false)
              (idx + 1 + bytes.length) with
          | none =>
            rw [hkinds]
            simp only [List.length_cons, List.length_append, writeKinds_length]
            congr 1
            omega
          | some e => rfl
    · have hkinds : transKinds (I2cOperation.write bytes :: rest) first prevRead =
          writeKinds bytes ++ transKinds rest false false := by
        rw [transKinds_write, if_neg ha]
        simp
      have hf0 : firstFailErr oracle
          (transKinds (I2cOperation.write bytes :: rest) first prevRead) idx =
          match firstFailErr oracle (writeKinds bytes) idx with
          | some e => some e
          | none => firstFailErr oracle (transKinds rest false false)
              (idx + bytes.length) := by
        rw [hkinds, firstFailErr_append, writeKinds_length]
      have hwp := fastParseWrite_spec response oracle bytes idx
        (fun i hi => hresp i (by
          rw [hkinds]
          simp only [List.length_append, writeKinds_length]
          omega))
      rw [fastParse_write_eq, if_neg ha, hwp]
      cases hwb : firstFailErr oracle (writeKinds bytes) idx with
      | some e0 =>
        rw [hf0, hwb]
      | none =>
        have hsub := fastParse_spec response oracle rest false false
          (idx + bytes.length)
          (fun i hi => hresp i (by
            rw [hkinds]
            simp only [List.length_append, writeKinds_length]
            omega))
        rw [hf0, hwb]
        dsimp only
        rw [hsub]
        cases firstFailErr oracle (transKinds rest false false)
            (idx + bytes.length) with
        | none =>
          rw [hkinds]
          simp only [List.length_append, writeKinds_length]
          congr 1
          omega
        | some e => rfl

theorem getD_range_map (f : Nat → Nat) (n i : Nat) (h : i < n) :
    ((List.range n).map f).getD i 0 = f i := by
  rw [List.getD_eq_getElem?_getD, List.getElem?_map, List.getElem?_range h]
  rfl

theorem transactionPerByte_eq (cfg : I2cConfig) (address : Nat)
    (ops : List I2cOperation) (oracle : Nat → Nat) :
    transactionPerByte cfg address ops oracle =
      match (perByteGo cfg address oracle ops true false 0).1 with
      | Except.ok _ =>
        (Except.ok (), i2cStartCmds cfg ++
          (perByteGo cfg address oracle ops true false 0).2.1 ++ i2cEndCmds cfg)
      | Except.error e =>
        (Except.error e, i2cStartCmds cfg ++
          (perByteGo cfg address oracle ops true false 0).2.1) := rfl

theorem transactionFast_eq (cfg : I2cConfig) (address : Nat)
    (ops : List I2cOperation) (oracle : Nat → Nat) :
    transactionFast cfg address ops oracle =
      match fastParse ((List.range (cmdReads (i2cStartCmds cfg ++
          fastBuild cfg address ops true false ++ i2cEndCmds cfg))).map oracle)
          ops true false 0 with
      | Except.ok _ =>
        (Except.ok (), i2cStartCmds cfg ++ fastBuild cfg address ops true false ++
          i2cEndCmds cfg)
      | Except.error e =>
        (Except.error e, i2cStartCmds cfg ++ fastBuild cfg address ops true false ++
          i2cEndCmds cfg) := rfl

/-- **C7**: In an I2C transaction against a slave whose response bytes are
given by `oracle`, both the per-byte mode (`transaction`) and the fast
single-exchange mode (`transaction_fast`) return exactly the error of the
first failing acknowledge query: `NoAck(Address)` if it is an address-phase
ACK, `NoAck(Data)` if it is the ACK of a non-final write byte; a NACK on
the final data byte of a write (kind `dataAckFinal`) and read data bytes
can never fail a query, so they never fail the transaction, and with no
failing query both modes return `Ok`. In every case the emitted command
stream ends with the STOP sequence `i2cEndCmds`. -/
theorem i2c_nack_policy (cfg : I2cConfig) (address : Nat)
    (ops : List I2cOperation) (oracle : Nat → Nat) :
    ((transactionPerByte cfg address ops oracle).1 =
        (match firstFailErr oracle (transKinds ops true false) 0 with
         | none => Except.ok ()
         | some e => Except.error e) ∧
      ∃ pre, (transactionPerByte cfg address ops oracle).2 =
        pre ++ i2cEndCmds cfg) ∧
    ((transactionFast cfg address ops oracle).1 =
        (match firstFailErr oracle (transKinds ops true false) 0 with
         | none => Except.ok ()
         | some e => Except.error e) ∧
      ∃ pre, (transactionFast cfg address ops oracle).2 =
        pre ++ i2cEndCmds cfg) := by
  have hs := perByteGo_spec cfg address oracle ops true false 0
  have hcount : cmdReads (i2cStartCmds cfg ++ fastBuild cfg address ops true false ++
      i2cEndCmds cfg) = (transKinds ops true false).length := by
    rw [cmdReads_append, cmdReads_append, cmdReads_start, cmdReads_end,
      cmdReads_fastBuild]
    omega
  have hp := fastParse_spec ((List.range (cmdReads (i2cStartCmds cfg ++
      fastBuild cfg address ops true false ++ i2cEndCmds cfg))).map oracle)
    oracle ops true false 0
    (fun i hi => getD_range_map oracle _ i (by rw [hcount]; omega))
  cases hff : firstFailErr oracle (transKinds ops true false) 0 with
  | none =>
    obtain ⟨h1, _⟩ := hs.1 hff
    rw [hff] at hp
    dsimp only at hp
    constructor
    · rw [transactionPerByte_eq, h1]
      exact ⟨rfl, ⟨i2cStartCmds cfg ++
        (perByteGo cfg address oracle ops true false 0).2.1, rfl⟩⟩
    · rw [transactionFast_eq, hp]
      exact ⟨rfl, ⟨i2cStartCmds cfg ++ fastBuild cfg address ops true false, rfl⟩⟩
  | some e =>
    obtain ⟨h1, pre, h2⟩ := hs.2 e hff
    rw [hff] at hp
    dsimp only at hp
    constructor
    · rw [transactionPerByte_eq, h1]
      refine ⟨rfl, ⟨i2cStartCmds cfg ++ pre, ?_⟩⟩
      dsimp only
      rw [h2, List.append_assoc]
    · rw [transactionFast_eq, hp]
      exact ⟨rfl, ⟨i2cStartCmds cfg ++ fastBuild cfg address ops true false, rfl⟩⟩
